import Mathlib

/-!
Shallow embedding of `bounds_check_indices_cpu` from
`fbgemm_gpu/codegen/embedding_bounds_check_host_cpu.cpp` (FBGEMM), together
with proofs about its three enforcement policies.

Modelling conventions:
* `int64_t` / `index_t` values become `Int` (no overflow is possible at the
  magnitudes the routine manipulates: values are only compared and clamped
  against buffer lengths).
* The three tensors `offsets`, `indices`, `warning` (a single cell) become the
  fields of `CheckState`; `rows_per_table` is read-only and stays a parameter.
* Every raw accessor read/write of the C++ code goes through `readAt`/`writeAt`,
  which return `CheckErr.oob` when the position is outside the buffer, so that
  memory safety of the routine is a provable statement.
* `TORCH_CHECK` failure becomes `CheckErr.checkFail`.
* `LOG(ERROR)` emission is counted in `diagCount` (one increment per emitted
  diagnostic record); `__sync_fetch_and_add(&warning_acc[0], 1)` becomes a read
  of `warning` followed by an increment, which is its sequential semantics.
* The nested `for` loops become structural recursions `tableLoop` (over `t`),
  `batchLoop` (over `b`) and `elemLoop` (over `l`).
-/

namespace BoundsCheck

/-- Enforcement policy, mirroring the C++ `BoundsCheckMode` enum values used by
`bounds_check_indices_cpu` (`FATAL`, `WARNING`, `IGNORE`). -/
inductive BoundsCheckMode where
  | FATAL
  | WARNING
  | IGNORE
deriving DecidableEq, Repr

/-- Failure outcomes of the modelled routine: `checkFail` is a failed
`TORCH_CHECK` (the FATAL abort), `oob` is an out-of-bounds access to one of the
caller-provided buffers performed by the routine itself. -/
inductive CheckErr where
  | checkFail
  | oob
deriving DecidableEq, Repr

/-- The mutable state of one call: the `offsets` and `indices` buffers, the
single-cell `warning` counter, and the number of diagnostic records emitted so
far (`LOG(ERROR)` calls). -/
structure CheckState where
  offsets : List Int
  indices : List Int
  warning : Int
  diagCount : Nat
deriving DecidableEq, Repr

/-- Bounds-checked read of buffer position `i` (an `int64` index in the C++
code); out-of-range positions are reported as `CheckErr.oob`. -/
def readAt (l : List Int) (i : Int) : Except CheckErr Int :=
  if 0 ≤ i ∧ i.toNat < l.length then Except.ok (l.getD i.toNat 0)
  else Except.error CheckErr.oob

/-- Bounds-checked write of value `v` at buffer position `i`. -/
def writeAt (l : List Int) (i : Int) (v : Int) : Except CheckErr (List Int) :=
  if 0 ≤ i ∧ i.toNat < l.length then Except.ok (l.set i.toNat v)
  else Except.error CheckErr.oob

/-- Body of the innermost loop of `bounds_check_indices_cpu`: process element
`l` of the current segment, i.e. the C++ lines reading
`idx = indices_acc[indices_start + l]` and the per-policy response. -/
def elemStep (mode : BoundsCheckMode) (numRows indicesStart : Int) (l : Nat)
    (s : CheckState) : Except CheckErr CheckState := do
  let idx ← readAt s.indices (indicesStart + l)
  if idx = -1 then
    Except.ok s
  else
    match mode with
    | BoundsCheckMode.FATAL =>
        if 0 ≤ idx ∧ idx < numRows then Except.ok s
        else Except.error CheckErr.checkFail
    | BoundsCheckMode.WARNING =>
        if idx < 0 ∨ numRows ≤ idx then do
          let prev := s.warning
          let ind ← writeAt s.indices (indicesStart + l) 0
          Except.ok { s with
            warning := s.warning + 1,
            diagCount := if prev = 0 then s.diagCount + 1 else s.diagCount,
            indices := ind }
        else Except.ok s
    | BoundsCheckMode.IGNORE =>
        if idx < 0 ∨ numRows ≤ idx then do
          let ind ← writeAt s.indices (indicesStart + l) 0
          Except.ok { s with indices := ind }
        else Except.ok s

/-- The innermost loop `for (auto l = 0; l < L; ++l)`: `n` is the number of
remaining iterations, `l` the current loop counter. -/
def elemLoop (mode : BoundsCheckMode) (numRows indicesStart : Int) :
    Nat → Nat → CheckState → Except CheckErr CheckState
  | _, 0, s => Except.ok s
  | l, n+1, s => do
      let s' ← elemStep mode numRows indicesStart l s
      elemLoop mode numRows indicesStart (l+1) n s'

/-- Body of the middle loop of `bounds_check_indices_cpu`: process the segment
of table `t`, batch element `b` (reads `offsets_acc[t*B+b]` and
`offsets_acc[t*B+b+1]`, applies the per-policy segment-bounds handling, then
runs the element loop over the resulting segment). -/
def segStep (mode : BoundsCheckMode) (numIndices numRows : Int) (B t b : Nat)
    (s : CheckState) : Except CheckErr CheckState := do
  let indicesStart ← readAt s.offsets ((t*B+b : Nat) : Int)
  let indicesEnd ← readAt s.offsets ((t*B+b+1 : Nat) : Int)
  match mode with
  | BoundsCheckMode.FATAL =>
      if 0 ≤ indicesStart ∧ indicesStart ≤ indicesEnd ∧ indicesEnd ≤ numIndices then
        elemLoop BoundsCheckMode.FATAL numRows indicesStart 0
          (indicesEnd - indicesStart).toNat s
      else Except.error CheckErr.checkFail
  | BoundsCheckMode.WARNING =>
      if indicesStart < 0 ∨ indicesEnd < indicesStart ∨ numIndices < indicesEnd then
        let prev := s.warning
        let s1 : CheckState := { s with
          warning := s.warning + 1,
          diagCount := if prev = 0 then s.diagCount + 1 else s.diagCount }
        let start2 := max 0 (min indicesStart numIndices)
        let end2 := max start2 (min indicesEnd numIndices)
        let off1 ← writeAt s1.offsets ((t*B+b : Nat) : Int) start2
        let off2 ← writeAt off1 ((t*B+b+1 : Nat) : Int) end2
        elemLoop BoundsCheckMode.WARNING numRows start2 0
          (end2 - start2).toNat { s1 with offsets := off2 }
      else
        elemLoop BoundsCheckMode.WARNING numRows indicesStart 0
          (indicesEnd - indicesStart).toNat s
  | BoundsCheckMode.IGNORE =>
      let start2 := max 0 (min indicesStart numIndices)
      let end2 := max start2 (min indicesEnd numIndices)
      let off1 ← writeAt s.offsets ((t*B+b : Nat) : Int) start2
      let off2 ← writeAt off1 ((t*B+b+1 : Nat) : Int) end2
      elemLoop BoundsCheckMode.IGNORE numRows start2 0
        (end2 - start2).toNat { s with offsets := off2 }

/-- The middle loop `for (auto b = 0; b < B; ++b)`: `n` remaining iterations,
`b` the current batch element. -/
def batchLoop (mode : BoundsCheckMode) (numIndices numRows : Int) (B t : Nat) :
    Nat → Nat → CheckState → Except CheckErr CheckState
  | _, 0, s => Except.ok s
  | b, n+1, s => do
      let s' ← segStep mode numIndices numRows B t b s
      batchLoop mode numIndices numRows B t (b+1) n s'

/-- The outer loop `for (auto t = 0; t < T; ++t)`: reads
`num_rows = rows_per_table_acc[t]`, then runs the batch loop. -/
def tableLoop (mode : BoundsCheckMode) (rowsPerTable : List Int)
    (numIndices : Int) (B : Nat) :
    Nat → Nat → CheckState → Except CheckErr CheckState
  | _, 0, s => Except.ok s
  | t, n+1, s => do
      let numRows ← readAt rowsPerTable (t : Int)
      let s' ← batchLoop mode numIndices numRows B t 0 B s
      tableLoop mode rowsPerTable numIndices B (t+1) n s'

/-- The whole routine `bounds_check_indices_cpu`: zero the warning counter when
the policy is WARNING (`warning.zero_()`), compute `T`, `B = (len(offsets)-1)/T`
and `num_indices`, and run the nested loops. -/
def bounds_check_indices_cpu (mode : BoundsCheckMode)
    (rowsPerTable indices offsets : List Int) (warningInit : Int) :
    Except CheckErr CheckState :=
  let warning0 : Int := if mode = BoundsCheckMode.WARNING then 0 else warningInit
  let T := rowsPerTable.length
  let B := (offsets.length - 1) / T
  tableLoop mode rowsPerTable (indices.length : Int) B 0 T
    { offsets := offsets, indices := indices, warning := warning0, diagCount := 0 }

/-- Result projection: did the call return (as opposed to failing)? -/
def okBool : Except CheckErr CheckState → Bool
  | Except.ok _ => true
  | Except.error _ => false

/-- Result projection: the final `offsets` buffer (empty on failure). -/
def runOffsets : Except CheckErr CheckState → List Int
  | Except.ok s => s.offsets
  | Except.error _ => []

/-- Result projection: the final `indices` buffer (empty on failure). -/
def runIndices : Except CheckErr CheckState → List Int
  | Except.ok s => s.indices
  | Except.error _ => []

/-- Result projection: the final warning-counter value (0 on failure). -/
def runWarning : Except CheckErr CheckState → Int
  | Except.ok s => s.warning
  | Except.error _ => 0

/-- Result projection: the number of diagnostic records emitted (0 on failure). -/
def runDiagCount : Except CheckErr CheckState → Nat
  | Except.ok s => s.diagCount
  | Except.error _ => 0

/-- An index value is acceptable for a table with `numRows` rows when it is the
sentinel `-1` or a row id in `[0, numRows)`. -/
def GoodElem (numRows idx : Int) : Prop :=
  idx = -1 ∨ (0 ≤ idx ∧ idx < numRows)

instance (numRows idx : Int) : Decidable (GoodElem numRows idx) := by
  unfold GoodElem; infer_instance

/-- A segment `[start, e)` is within bounds of an `indices` buffer of length
`numIndices`. -/
def segOk (numIndices start e : Int) : Prop :=
  0 ≤ start ∧ start ≤ e ∧ e ≤ numIndices

instance (numIndices start e : Int) : Decidable (segOk numIndices start e) := by
  unfold segOk; infer_instance

/-- Segment `k` of `offsets` is within bounds and every element it covers in
`indices` is acceptable for a table with `numRows` rows. -/
def SegValidAt (numIndices numRows : Int) (offsets indices : List Int)
    (k : Nat) : Prop :=
  segOk numIndices (offsets.getD k 0) (offsets.getD (k+1) 0) ∧
  ∀ j : Nat, j < indices.length → offsets.getD k 0 ≤ (j : Int) →
    (j : Int) < offsets.getD (k+1) 0 → GoodElem numRows (indices.getD j 0)

instance (numIndices numRows : Int) (offsets indices : List Int) (k : Nat) :
    Decidable (SegValidAt numIndices numRows offsets indices k) := by
  unfold SegValidAt; infer_instance

/-- The safety invariant of the spec: every `(t, b)` segment is in bounds of
`indices` and every non-sentinel element it covers is a valid row id for its
table. -/
def Invariant (rowCounts offsets indices : List Int) (B : Nat) : Prop :=
  ∀ t, t < rowCounts.length → ∀ b, b < B →
    SegValidAt (indices.length : Int) (rowCounts.getD t 0) offsets indices (t*B+b)

instance (rowCounts offsets indices : List Int) (B : Nat) :
    Decidable (Invariant rowCounts offsets indices B) := by
  unfold Invariant; infer_instance

/-- The input contains a violation in the sense of the spec: some segment is out
of bounds, or some in-bounds segment covers a non-sentinel element that is not a
valid row id for its table. -/
def HasViolation (rowCounts offsets indices : List Int) (B : Nat) : Prop :=
  (∃ t, t < rowCounts.length ∧ ∃ b, b < B ∧
    ¬ segOk (indices.length : Int) (offsets.getD (t*B+b) 0)
      (offsets.getD (t*B+b+1) 0)) ∨
  (∃ t, t < rowCounts.length ∧ ∃ b, b < B ∧
    segOk (indices.length : Int) (offsets.getD (t*B+b) 0)
      (offsets.getD (t*B+b+1) 0) ∧
    ∃ j, j < indices.length ∧ offsets.getD (t*B+b) 0 ≤ (j : Int) ∧
      (j : Int) < offsets.getD (t*B+b+1) 0 ∧ indices.getD j 0 ≠ -1 ∧
      (indices.getD j 0 < 0 ∨ rowCounts.getD t 0 ≤ indices.getD j 0))

instance (rowCounts offsets indices : List Int) (B : Nat) :
    Decidable (HasViolation rowCounts offsets indices B) := by
  unfold HasViolation; infer_instance

/-- Invariant tying the diagnostic count to the warning counter during a
WARNING-mode call that started from a zeroed counter: exactly one record has
been emitted iff the counter has been incremented at least once. -/
def WInv (s : CheckState) : Prop :=
  0 ≤ s.warning ∧ s.diagCount = if s.warning = 0 then 0 else 1

/-- Number of unacceptable (non-sentinel, out-of-range) elements of `indices`
at positions `[a, a+n)`; this is the per-segment tally used by the spec's
"exact total number of violations" formula. -/
def countRange (indices : List Int) (numRows : Int) : Nat → Nat → Nat
  | _, 0 => 0
  | a, n+1 =>
      (if GoodElem numRows (indices.getD a 0) then 0 else 1) +
        countRange indices numRows (a+1) n

/-- Static violation tally of one segment `k`: one for the segment-range
violation if any, plus one per unacceptable element the segment covers. -/
def segViolations (offsets indices : List Int) (numRows : Int) (k : Nat) : Nat :=
  (if segOk (indices.length : Int) (offsets.getD k 0) (offsets.getD (k+1) 0)
    then 0 else 1) +
  countRange indices numRows (offsets.getD k 0).toNat
    ((offsets.getD (k+1) 0).toNat - (offsets.getD k 0).toNat)

/-- Static violation tally of segments `[k, k+n)`. -/
def rangeViolations (offsets indices : List Int) (numRows : Int) :
    Nat → Nat → Nat
  | _, 0 => 0
  | k, n+1 =>
      segViolations offsets indices numRows k +
        rangeViolations offsets indices numRows (k+1) n

/-- Static violation tally of tables `[t, t+n)` (each table contributing its
`B` segments). -/
def tableViolations (rowCounts offsets indices : List Int) (B : Nat) :
    Nat → Nat → Nat
  | _, 0 => 0
  | t, n+1 =>
      rangeViolations offsets indices (rowCounts.getD t 0) (t*B) B +
        tableViolations rowCounts offsets indices B (t+1) n

/-- The total static violation tally of an input, per the spec's formula: one
per out-of-bounds segment plus one per non-sentinel in-segment index outside
`[0, RowCounts[t])`. -/
def staticViolationTotal (rowCounts offsets indices : List Int) (B : Nat) : Nat :=
  tableViolations rowCounts offsets indices B 0 rowCounts.length

/-- All segments of the input are in bounds (no segment-range violations). -/
def SegOkAll (rowCounts offsets indices : List Int) (B : Nat) : Prop :=
  ∀ t, t < rowCounts.length → ∀ b, b < B →
    segOk (indices.length : Int) (offsets.getD (t*B+b) 0)
      (offsets.getD (t*B+b+1) 0)

instance (rowCounts offsets indices : List Int) (B : Nat) :
    Decidable (SegOkAll rowCounts offsets indices B) := by
  unfold SegOkAll; infer_instance

example :
    bounds_check_indices_cpu BoundsCheckMode.IGNORE [3] [1, 5, -1, 2, 9]
      [0, 2, 5] 0 =
    Except.ok ⟨[0, 2, 5], [1, 0, -1, 2, 0], 0, 0⟩ := by rfl

example :
    bounds_check_indices_cpu BoundsCheckMode.WARNING [3] [1, 5, -1, 2, 9]
      [0, 7, 5] 7 =
    Except.ok ⟨[0, 5, 5], [1, 0, -1, 2, 0], 3, 1⟩ := by rfl

example :
    bounds_check_indices_cpu BoundsCheckMode.IGNORE [0] [3] [0, 1] 0 =
    Except.ok ⟨[0, 1], [0], 0, 0⟩ := by rfl

example :
    bounds_check_indices_cpu BoundsCheckMode.WARNING [1, 1] [5, 5] [2, 0, 2] 0 =
    Except.ok ⟨[2, 2, 2], [5, 5], 1, 1⟩ := by rfl

example : staticViolationTotal [1, 1] [2, 0, 2] [5, 5] 1 = 3 := by decide

example :
    bounds_check_indices_cpu BoundsCheckMode.FATAL [3] [1, 5, -1, 2, 9]
      [0, 7, 5] 0 = Except.error CheckErr.checkFail := by rfl

lemma readAt_ok (l : List Int) (i : Int) (h0 : 0 ≤ i) (h1 : i.toNat < l.length) :
    readAt l i = Except.ok (l.getD i.toNat 0) := by
  unfold readAt
  rw [if_pos ⟨h0, h1⟩]

lemma writeAt_ok (l : List Int) (i v : Int) (h0 : 0 ≤ i)
    (h1 : i.toNat < l.length) :
    writeAt l i v = Except.ok (l.set i.toNat v) := by
  unfold writeAt
  rw [if_pos ⟨h0, h1⟩]

lemma getD_set_self (l : List Int) (i : Nat) (v : Int) (h : i < l.length) :
    (l.set i v).getD i 0 = v := by
  induction l generalizing i with
  | nil => simp at h
  | cons a t ih =>
    cases i with
    | zero => simp
    | succ i =>
      rw [List.set_cons_succ, List.getD_cons_succ]
      exact ih i (by simpa using h)

lemma getD_set_ne (l : List Int) (i j : Nat) (v : Int) (h : i ≠ j) :
    (l.set i v).getD j 0 = l.getD j 0 := by
  induction l generalizing i j with
  | nil => simp
  | cons a t ih =>
    cases i with
    | zero =>
      cases j with
      | zero => exact absurd rfl h
      | succ j => simp
    | succ i =>
      cases j with
      | zero => simp
      | succ j =>
        rw [List.set_cons_succ, List.getD_cons_succ, List.getD_cons_succ]
        exact ih i j (by omega)

lemma set_getD_self (l : List Int) (i : Nat) (h : i < l.length) :
    l.set i (l.getD i 0) = l := by
  induction l generalizing i with
  | nil => simp at h
  | cons a t ih =>
    cases i with
    | zero => simp
    | succ i =>
      rw [List.getD_cons_succ, List.set_cons_succ, ih i (by simpa using h)]

/-- Pointwise evolution of the `indices` buffer across a WARNING/IGNORE call:
every position either keeps its value or is overwritten with `0`, the latter
only at positions that did not hold the sentinel. -/
def IndEvol (old new : List Int) : Prop :=
  ∀ j : Nat,
    new.getD j 0 = old.getD j 0 ∨ (new.getD j 0 = 0 ∧ old.getD j 0 ≠ -1)

lemma indEvol_refl (l : List Int) : IndEvol l l := fun _ => Or.inl rfl

lemma indEvol_trans {a b c : List Int} (h1 : IndEvol a b) (h2 : IndEvol b c) :
    IndEvol a c := by
  intro j
  rcases h2 j with h | ⟨h, hb⟩
  · rw [h]; exact h1 j
  · rcases h1 j with h1j | ⟨h1j, ha⟩
    · rw [h1j] at hb; exact Or.inr ⟨h, hb⟩
    · exact Or.inr ⟨h, ha⟩

lemma elemStep_sentinel (mode : BoundsCheckMode) (numRows indicesStart : Int)
    (l : Nat) (s : CheckState) (h0 : 0 ≤ indicesStart + (l : Int))
    (h1 : (indicesStart + (l : Int)).toNat < s.indices.length)
    (hidx : s.indices.getD (indicesStart + (l : Int)).toNat 0 = -1) :
    elemStep mode numRows indicesStart l s = Except.ok s := by
  unfold elemStep
  rw [readAt_ok _ _ h0 h1]
  simp only [bind, Except.bind]
  rw [if_pos hidx]

lemma elemStep_good (mode : BoundsCheckMode)
    (hmode : mode = BoundsCheckMode.WARNING ∨ mode = BoundsCheckMode.IGNORE)
    (numRows indicesStart : Int) (l : Nat) (s : CheckState)
    (h0 : 0 ≤ indicesStart + (l : Int))
    (h1 : (indicesStart + (l : Int)).toNat < s.indices.length)
    (hidx : s.indices.getD (indicesStart + (l : Int)).toNat 0 ≠ -1)
    (hgood : ¬(s.indices.getD (indicesStart + (l : Int)).toNat 0 < 0 ∨
      numRows ≤ s.indices.getD (indicesStart + (l : Int)).toNat 0)) :
    elemStep mode numRows indicesStart l s = Except.ok s := by
  unfold elemStep
  rw [readAt_ok _ _ h0 h1]
  simp only [bind, Except.bind]
  rw [if_neg hidx]
  simp only [if_neg hgood]
  rcases hmode with h | h <;> subst h <;> rfl

lemma elemStep_bad_warning (numRows indicesStart : Int) (l : Nat)
    (s : CheckState) (h0 : 0 ≤ indicesStart + (l : Int))
    (h1 : (indicesStart + (l : Int)).toNat < s.indices.length)
    (hidx : s.indices.getD (indicesStart + (l : Int)).toNat 0 ≠ -1)
    (hbad : s.indices.getD (indicesStart + (l : Int)).toNat 0 < 0 ∨
      numRows ≤ s.indices.getD (indicesStart + (l : Int)).toNat 0) :
    elemStep BoundsCheckMode.WARNING numRows indicesStart l s =
      Except.ok { s with
        warning := s.warning + 1,
        diagCount := if s.warning = 0 then s.diagCount + 1 else s.diagCount,
        indices := s.indices.set (indicesStart + (l : Int)).toNat 0 } := by
  unfold elemStep
  rw [readAt_ok _ _ h0 h1]
  simp only [bind, Except.bind]
  rw [if_neg hidx, if_pos hbad, writeAt_ok _ _ _ h0 h1]

lemma elemStep_bad_ignore (numRows indicesStart : Int) (l : Nat)
    (s : CheckState) (h0 : 0 ≤ indicesStart + (l : Int))
    (h1 : (indicesStart + (l : Int)).toNat < s.indices.length)
    (hidx : s.indices.getD (indicesStart + (l : Int)).toNat 0 ≠ -1)
    (hbad : s.indices.getD (indicesStart + (l : Int)).toNat 0 < 0 ∨
      numRows ≤ s.indices.getD (indicesStart + (l : Int)).toNat 0) :
    elemStep BoundsCheckMode.IGNORE numRows indicesStart l s =
      Except.ok { s with
        indices := s.indices.set (indicesStart + (l : Int)).toNat 0 } := by
  unfold elemStep
  rw [readAt_ok _ _ h0 h1]
  simp only [bind, Except.bind]
  rw [if_neg hidx, if_pos hbad, writeAt_ok _ _ _ h0 h1]

lemma elemStep_fatal_good (numRows indicesStart : Int) (l : Nat)
    (s : CheckState) (h0 : 0 ≤ indicesStart + (l : Int))
    (h1 : (indicesStart + (l : Int)).toNat < s.indices.length)
    (hidx : s.indices.getD (indicesStart + (l : Int)).toNat 0 ≠ -1)
    (hgood : 0 ≤ s.indices.getD (indicesStart + (l : Int)).toNat 0 ∧
      s.indices.getD (indicesStart + (l : Int)).toNat 0 < numRows) :
    elemStep BoundsCheckMode.FATAL numRows indicesStart l s = Except.ok s := by
  unfold elemStep
  rw [readAt_ok _ _ h0 h1]
  simp only [bind, Except.bind]
  rw [if_neg hidx, if_pos hgood]

lemma elemStep_fatal_bad (numRows indicesStart : Int) (l : Nat)
    (s : CheckState) (h0 : 0 ≤ indicesStart + (l : Int))
    (h1 : (indicesStart + (l : Int)).toNat < s.indices.length)
    (hidx : s.indices.getD (indicesStart + (l : Int)).toNat 0 ≠ -1)
    (hbad : ¬(0 ≤ s.indices.getD (indicesStart + (l : Int)).toNat 0 ∧
      s.indices.getD (indicesStart + (l : Int)).toNat 0 < numRows)) :
    elemStep BoundsCheckMode.FATAL numRows indicesStart l s =
      Except.error CheckErr.checkFail := by
  unfold elemStep
  rw [readAt_ok _ _ h0 h1]
  simp only [bind, Except.bind]
  rw [if_neg hidx, if_neg hbad]

lemma elemLoop_succ (mode : BoundsCheckMode) (numRows indicesStart : Int)
    (l n : Nat) (s : CheckState) :
    elemLoop mode numRows indicesStart l (n+1) s =
      elemStep mode numRows indicesStart l s >>= fun s1 =>
        elemLoop mode numRows indicesStart (l+1) n s1 := rfl

lemma elemLoop_succ_ok (mode : BoundsCheckMode) (numRows indicesStart : Int)
    (l n : Nat) (s s1 : CheckState)
    (h : elemStep mode numRows indicesStart l s = Except.ok s1) :
    elemLoop mode numRows indicesStart l (n+1) s =
      elemLoop mode numRows indicesStart (l+1) n s1 := by
  rw [elemLoop_succ, h]
  rfl

lemma elemLoop_succ_err (mode : BoundsCheckMode) (numRows indicesStart : Int)
    (l n : Nat) (s : CheckState) (e : CheckErr)
    (h : elemStep mode numRows indicesStart l s = Except.error e) :
    elemLoop mode numRows indicesStart l (n+1) s = Except.error e := by
  rw [elemLoop_succ, h]
  rfl

lemma countRange_succ (ind : List Int) (numRows : Int) (a n : Nat) :
    countRange ind numRows a (n+1) =
      (if GoodElem numRows (ind.getD a 0) then 0 else 1) +
        countRange ind numRows (a+1) n := rfl

lemma countRange_congr (ind1 ind2 : List Int) (numRows : Int) :
    ∀ (n a : Nat), (∀ j, a ≤ j → j < a + n → ind1.getD j 0 = ind2.getD j 0) →
      countRange ind1 numRows a n = countRange ind2 numRows a n := by
  intro n
  induction n with
  | zero => intro a _; rfl
  | succ n ih =>
    intro a h
    rw [countRange_succ, countRange_succ, h a (le_refl a) (by omega),
      ih (a+1) (fun j h1 h2 => h j (by omega) (by omega))]

/-- Master specification of the element loop under WARNING or IGNORE: it
returns, touches only `indices` positions in the processed range, zeroes only
non-sentinel entries, establishes element validity on the processed range,
only raises the warning counter (WARNING: by exactly the number of bad
elements), and is the identity on already-valid ranges. -/
lemma elemLoop_spec (mode : BoundsCheckMode)
    (hmode : mode = BoundsCheckMode.WARNING ∨ mode = BoundsCheckMode.IGNORE)
    (numRows indicesStart : Int) (hstart : 0 ≤ indicesStart) :
    ∀ (n l : Nat) (s : CheckState),
      indicesStart.toNat + l + n ≤ s.indices.length →
      ∃ s', elemLoop mode numRows indicesStart l n s = Except.ok s' ∧
        s'.offsets = s.offsets ∧
        s'.indices.length = s.indices.length ∧
        (∀ j : Nat, j < indicesStart.toNat + l ∨ indicesStart.toNat + l + n ≤ j →
          s'.indices.getD j 0 = s.indices.getD j 0) ∧
        IndEvol s.indices s'.indices ∧
        (∀ j : Nat, indicesStart.toNat + l ≤ j → j < indicesStart.toNat + l + n →
          s'.indices.getD j 0 = -1 ∨
            (0 ≤ s'.indices.getD j 0 ∧ s'.indices.getD j 0 < max numRows 1)) ∧
        s.warning ≤ s'.warning ∧
        (mode = BoundsCheckMode.IGNORE →
          s'.warning = s.warning ∧ s'.diagCount = s.diagCount) ∧
        (WInv s → WInv s') ∧
        ((∀ j : Nat, indicesStart.toNat + l ≤ j → j < indicesStart.toNat + l + n →
            GoodElem numRows (s.indices.getD j 0)) → s' = s) ∧
        (mode = BoundsCheckMode.WARNING → s'.warning = s.warning →
          s' = s ∧
          ∀ j : Nat, indicesStart.toNat + l ≤ j → j < indicesStart.toNat + l + n →
            GoodElem numRows (s.indices.getD j 0)) ∧
        (mode = BoundsCheckMode.WARNING →
          s'.warning = s.warning +
            (countRange s.indices numRows (indicesStart.toNat + l) n : Int)) := by
  intro n
  induction n with
  | zero =>
    intro l s _
    refine ⟨s, rfl, rfl, rfl, fun j _ => rfl, indEvol_refl _, ?_, le_refl _,
      fun _ => ⟨rfl, rfl⟩, id, fun _ => rfl, fun _ _ => ⟨rfl, ?_⟩, fun _ => ?_⟩
    · intro j h1 h2; omega
    · intro j h1 h2; omega
    · simp [countRange]
  | succ n ih =>
    intro l s hlen
    have h0 : (0:Int) ≤ indicesStart + (l : Int) := by omega
    have h1 : (indicesStart + (l : Int)).toNat < s.indices.length := by omega
    have hq : (indicesStart + (l : Int)).toNat = indicesStart.toNat + l := by
      omega
    by_cases hGood : GoodElem numRows
        (s.indices.getD (indicesStart + (l : Int)).toNat 0)
    · -- acceptable element: the step is a no-op
      have hstep : elemStep mode numRows indicesStart l s = Except.ok s := by
        rcases hGood with hm1 | ⟨hge, hlt⟩
        · exact elemStep_sentinel mode numRows indicesStart l s h0 h1 hm1
        · exact elemStep_good mode hmode numRows indicesStart l s h0 h1
            (by omega) (by omega)
      obtain ⟨s', hrun, hoff, hlen2, hframe, hevol, hpost, hmono, hign, hwinv,
        hnoop, hnoincr, hcount⟩ := ih (l+1) s (by omega)
      refine ⟨s', ?_, hoff, hlen2, ?_, hevol, ?_, hmono, hign, hwinv, ?_, ?_, ?_⟩
      · rw [elemLoop_succ_ok mode numRows indicesStart l n s s hstep]
        exact hrun
      · intro j hj
        exact hframe j (by omega)
      · intro j hj1 hj2
        rcases Nat.eq_or_lt_of_le hj1 with hj | hj
        · have heq : s'.indices.getD j 0 = s.indices.getD j 0 :=
            hframe j (by omega)
          rw [heq, ← hj, ← hq]
          rcases hGood with hm1 | ⟨hge, hlt⟩
          · exact Or.inl hm1
          · exact Or.inr ⟨hge, lt_max_iff.mpr (Or.inl hlt)⟩
        · exact hpost j (by omega) (by omega)
      · intro hall
        exact hnoop (fun j hj1 hj2 => hall j (by omega) (by omega))
      · intro hW hweq
        obtain ⟨hse, htail⟩ := hnoincr hW hweq
        refine ⟨hse, fun j hj1 hj2 => ?_⟩
        rcases Nat.eq_or_lt_of_le hj1 with hj | hj
        · rw [← hj, ← hq]; exact hGood
        · exact htail j (by omega) (by omega)
      · intro hW
        rw [hcount hW, countRange_succ, ← hq, if_pos hGood, hq]
        simp [Nat.add_assoc]
    · -- bad element: it is zeroed (and counted under WARNING)
      have hidx : s.indices.getD (indicesStart + (l : Int)).toNat 0 ≠ -1 := by
        intro h; exact hGood (Or.inl h)
      have hbad : s.indices.getD (indicesStart + (l : Int)).toNat 0 < 0 ∨
          numRows ≤ s.indices.getD (indicesStart + (l : Int)).toNat 0 := by
        by_contra h
        exact hGood (Or.inr (by omega))
      have hmax : (0:Int) < max numRows 1 := lt_max_iff.mpr (Or.inr one_pos)
      have hcnt1 : countRange s.indices numRows (indicesStart.toNat + l) (n+1) =
          1 + countRange s.indices numRows (indicesStart.toNat + l + 1) n := by
        rw [countRange_succ, ← hq, if_neg hGood]
      rcases hmode with hm | hm
      · -- WARNING
        subst hm
        set s1 : CheckState := { s with
          warning := s.warning + 1,
          diagCount := if s.warning = 0 then s.diagCount + 1 else s.diagCount,
          indices := s.indices.set (indicesStart + (l : Int)).toNat 0 } with hs1
        have hstep := elemStep_bad_warning numRows indicesStart l s h0 h1 hidx hbad
        obtain ⟨s', hrun, hoff, hlen2, hframe, hevol, hpost, hmono, hign, hwinv,
          hnoop, hnoincr, hcount⟩ := ih (l+1) s1
          (by simp only [hs1, List.length_set]; omega)
        have hs1ind : s1.indices = s.indices.set (indicesStart + (l : Int)).toNat 0 := rfl
        have hs1len : s1.indices.length = s.indices.length := by
          rw [hs1ind, List.length_set]
        have hs1frame : ∀ j : Nat, j ≠ indicesStart.toNat + l →
            s1.indices.getD j 0 = s.indices.getD j 0 := by
          intro j hj
          rw [hs1ind, getD_set_ne _ _ _ _ (by omega)]
        have hs1at : s1.indices.getD (indicesStart.toNat + l) 0 = 0 := by
          rw [hs1ind, ← hq, getD_set_self _ _ _ h1]
        refine ⟨s', ?_, hoff, by rw [hlen2, hs1len], ?_, ?_, ?_, ?_, ?_, ?_, ?_, ?_, ?_⟩
        · rw [elemLoop_succ_ok _ _ _ _ _ _ _ hstep]
          exact hrun
        · intro j hj
          rw [hframe j (by omega), hs1frame j (by omega)]
        · refine indEvol_trans ?_ hevol
          intro j
          by_cases hj : j = indicesStart.toNat + l
          · subst hj
            exact Or.inr ⟨hs1at, by rw [← hq]; exact hidx⟩
          · exact Or.inl (hs1frame j hj)
        · intro j hj1 hj2
          rcases Nat.eq_or_lt_of_le hj1 with hj | hj
          · have heq : s'.indices.getD j 0 = s1.indices.getD j 0 :=
              hframe j (by omega)
            rw [heq, ← hj, hs1at]
            exact Or.inr ⟨le_refl 0, hmax⟩
          · exact hpost j (by omega) (by omega)
        · have : s1.warning = s.warning + 1 := rfl
          omega
        · intro h; simp at h
        · intro hw
          refine hwinv ?_
          obtain ⟨hw0, hwd⟩ := hw
          constructor
          · show 0 ≤ s.warning + 1; omega
          · show (if s.warning = 0 then s.diagCount + 1 else s.diagCount) =
              if s.warning + 1 = 0 then 0 else 1
            by_cases hz : s.warning = 0
            · rw [if_pos hz, if_neg (by omega), hwd, if_pos hz]
            · rw [if_neg hz, if_neg (by omega), hwd, if_neg hz]
        · intro hall
          exact absurd (hall (indicesStart.toNat + l) (le_refl _) (by omega))
            (by rw [← hq]; exact hGood)
        · intro _ hweq
          have hup : s1.warning = s.warning + 1 := rfl
          exact absurd hweq (by omega)
        · intro _
          rw [hcount rfl]
          have hup : s1.warning = s.warning + 1 := rfl
          rw [hup, hcnt1]
          have hcg : countRange s1.indices numRows (indicesStart.toNat + (l+1)) n =
              countRange s.indices numRows (indicesStart.toNat + (l+1)) n :=
            countRange_congr _ _ _ n _ (fun j hj1 hj2 => hs1frame j (by omega))
          rw [hcg]
          push_cast
          ring_nf
      · -- IGNORE
        subst hm
        set s1 : CheckState := { s with
          indices := s.indices.set (indicesStart + (l : Int)).toNat 0 } with hs1
        have hstep := elemStep_bad_ignore numRows indicesStart l s h0 h1 hidx hbad
        obtain ⟨s', hrun, hoff, hlen2, hframe, hevol, hpost, hmono, hign, hwinv,
          hnoop, hnoincr, hcount⟩ := ih (l+1) s1
          (by simp only [hs1, List.length_set]; omega)
        have hs1ind : s1.indices = s.indices.set (indicesStart + (l : Int)).toNat 0 := rfl
        have hs1len : s1.indices.length = s.indices.length := by
          rw [hs1ind, List.length_set]
        have hs1frame : ∀ j : Nat, j ≠ indicesStart.toNat + l →
            s1.indices.getD j 0 = s.indices.getD j 0 := by
          intro j hj
          rw [hs1ind, getD_set_ne _ _ _ _ (by omega)]
        have hs1at : s1.indices.getD (indicesStart.toNat + l) 0 = 0 := by
          rw [hs1ind, ← hq, getD_set_self _ _ _ h1]
        refine ⟨s', ?_, hoff, by rw [hlen2, hs1len], ?_, ?_, ?_, hmono, hign, hwinv, ?_, ?_, ?_⟩
        · rw [elemLoop_succ_ok _ _ _ _ _ _ _ hstep]
          exact hrun
        · intro j hj
          rw [hframe j (by omega), hs1frame j (by omega)]
        · refine indEvol_trans ?_ hevol
          intro j
          by_cases hj : j = indicesStart.toNat + l
          · subst hj
            exact Or.inr ⟨hs1at, by rw [← hq]; exact hidx⟩
          · exact Or.inl (hs1frame j hj)
        · intro j hj1 hj2
          rcases Nat.eq_or_lt_of_le hj1 with hj | hj
          · have heq : s'.indices.getD j 0 = s1.indices.getD j 0 :=
              hframe j (by omega)
            rw [heq, ← hj, hs1at]
            exact Or.inr ⟨le_refl 0, lt_max_iff.mpr (Or.inr one_pos)⟩
          · exact hpost j (by omega) (by omega)
        · intro hall
          exact absurd (hall (indicesStart.toNat + l) (le_refl _) (by omega))
            (by rw [← hq]; exact hGood)
        · intro hW; simp at hW
        · intro hW; simp at hW

lemma readAt_nat (l : List Int) (k : Nat) (h : k < l.length) :
    readAt l (k : Int) = Except.ok (l.getD k 0) := by
  have ht : ((k : Int)).toNat = k := by omega
  rw [readAt_ok l (k : Int) (by omega) (by omega), ht]

lemma writeAt_nat (l : List Int) (k : Nat) (v : Int) (h : k < l.length) :
    writeAt l (k : Int) v = Except.ok (l.set k v) := by
  have ht : ((k : Int)).toNat = k := by omega
  rw [writeAt_ok l (k : Int) v (by omega) (by omega), ht]

lemma segStep_warning_viol (numIndices numRows : Int) (B t b : Nat)
    (s : CheckState) (hk : t*B+b+1 < s.offsets.length)
    (hviol : s.offsets.getD (t*B+b) 0 < 0 ∨
      s.offsets.getD (t*B+b+1) 0 < s.offsets.getD (t*B+b) 0 ∨
      numIndices < s.offsets.getD (t*B+b+1) 0) :
    segStep BoundsCheckMode.WARNING numIndices numRows B t b s =
      elemLoop BoundsCheckMode.WARNING numRows
        (max 0 (min (s.offsets.getD (t*B+b) 0) numIndices)) 0
        (max (max 0 (min (s.offsets.getD (t*B+b) 0) numIndices))
            (min (s.offsets.getD (t*B+b+1) 0) numIndices) -
          max 0 (min (s.offsets.getD (t*B+b) 0) numIndices)).toNat
        { s with
          warning := s.warning + 1,
          diagCount := if s.warning = 0 then s.diagCount + 1 else s.diagCount,
          offsets := (s.offsets.set (t*B+b)
              (max 0 (min (s.offsets.getD (t*B+b) 0) numIndices))).set (t*B+b+1)
              (max (max 0 (min (s.offsets.getD (t*B+b) 0) numIndices))
                (min (s.offsets.getD (t*B+b+1) 0) numIndices)) } := by
  have hr1 : readAt s.offsets ((t*B+b : Nat) : Int) =
      Except.ok (s.offsets.getD (t*B+b) 0) := readAt_nat _ _ (by omega)
  have hr2 : readAt s.offsets ((t*B+b+1 : Nat) : Int) =
      Except.ok (s.offsets.getD (t*B+b+1) 0) := readAt_nat _ _ hk
  have hw1 : writeAt s.offsets ((t*B+b : Nat) : Int)
      (max 0 (min (s.offsets.getD (t*B+b) 0) numIndices)) =
      Except.ok (s.offsets.set (t*B+b)
        (max 0 (min (s.offsets.getD (t*B+b) 0) numIndices))) :=
    writeAt_nat _ _ _ (by omega)
  have hw2 : writeAt (s.offsets.set (t*B+b)
        (max 0 (min (s.offsets.getD (t*B+b) 0) numIndices))) ((t*B+b+1 : Nat) : Int)
      (max (max 0 (min (s.offsets.getD (t*B+b) 0) numIndices))
        (min (s.offsets.getD (t*B+b+1) 0) numIndices)) =
      Except.ok ((s.offsets.set (t*B+b)
          (max 0 (min (s.offsets.getD (t*B+b) 0) numIndices))).set (t*B+b+1)
        (max (max 0 (min (s.offsets.getD (t*B+b) 0) numIndices))
          (min (s.offsets.getD (t*B+b+1) 0) numIndices))) :=
    writeAt_nat _ _ _ (by rw [List.length_set]; exact hk)
  simp only [segStep, hr1, hr2, bind, Except.bind, if_pos hviol, hw1, hw2]

lemma segStep_warning_ok (numIndices numRows : Int) (B t b : Nat)
    (s : CheckState) (hk : t*B+b+1 < s.offsets.length)
    (hok : ¬(s.offsets.getD (t*B+b) 0 < 0 ∨
      s.offsets.getD (t*B+b+1) 0 < s.offsets.getD (t*B+b) 0 ∨
      numIndices < s.offsets.getD (t*B+b+1) 0)) :
    segStep BoundsCheckMode.WARNING numIndices numRows B t b s =
      elemLoop BoundsCheckMode.WARNING numRows (s.offsets.getD (t*B+b) 0) 0
        (s.offsets.getD (t*B+b+1) 0 - s.offsets.getD (t*B+b) 0).toNat s := by
  have hr1 : readAt s.offsets ((t*B+b : Nat) : Int) =
      Except.ok (s.offsets.getD (t*B+b) 0) := readAt_nat _ _ (by omega)
  have hr2 : readAt s.offsets ((t*B+b+1 : Nat) : Int) =
      Except.ok (s.offsets.getD (t*B+b+1) 0) := readAt_nat _ _ hk
  simp only [segStep, hr1, hr2, bind, Except.bind, if_neg hok]

lemma segStep_ignore (numIndices numRows : Int) (B t b : Nat)
    (s : CheckState) (hk : t*B+b+1 < s.offsets.length) :
    segStep BoundsCheckMode.IGNORE numIndices numRows B t b s =
      elemLoop BoundsCheckMode.IGNORE numRows
        (max 0 (min (s.offsets.getD (t*B+b) 0) numIndices)) 0
        (max (max 0 (min (s.offsets.getD (t*B+b) 0) numIndices))
            (min (s.offsets.getD (t*B+b+1) 0) numIndices) -
          max 0 (min (s.offsets.getD (t*B+b) 0) numIndices)).toNat
        { s with
          offsets := (s.offsets.set (t*B+b)
              (max 0 (min (s.offsets.getD (t*B+b) 0) numIndices))).set (t*B+b+1)
              (max (max 0 (min (s.offsets.getD (t*B+b) 0) numIndices))
                (min (s.offsets.getD (t*B+b+1) 0) numIndices)) } := by
  have hr1 : readAt s.offsets ((t*B+b : Nat) : Int) =
      Except.ok (s.offsets.getD (t*B+b) 0) := readAt_nat _ _ (by omega)
  have hr2 : readAt s.offsets ((t*B+b+1 : Nat) : Int) =
      Except.ok (s.offsets.getD (t*B+b+1) 0) := readAt_nat _ _ hk
  have hw1 : writeAt s.offsets ((t*B+b : Nat) : Int)
      (max 0 (min (s.offsets.getD (t*B+b) 0) numIndices)) =
      Except.ok (s.offsets.set (t*B+b)
        (max 0 (min (s.offsets.getD (t*B+b) 0) numIndices))) :=
    writeAt_nat _ _ _ (by omega)
  have hw2 : writeAt (s.offsets.set (t*B+b)
        (max 0 (min (s.offsets.getD (t*B+b) 0) numIndices))) ((t*B+b+1 : Nat) : Int)
      (max (max 0 (min (s.offsets.getD (t*B+b) 0) numIndices))
        (min (s.offsets.getD (t*B+b+1) 0) numIndices)) =
      Except.ok ((s.offsets.set (t*B+b)
          (max 0 (min (s.offsets.getD (t*B+b) 0) numIndices))).set (t*B+b+1)
        (max (max 0 (min (s.offsets.getD (t*B+b) 0) numIndices))
          (min (s.offsets.getD (t*B+b+1) 0) numIndices))) :=
    writeAt_nat _ _ _ (by rw [List.length_set]; exact hk)
  simp only [segStep, hr1, hr2, bind, Except.bind, hw1, hw2]

lemma segStep_fatal_ok (numIndices numRows : Int) (B t b : Nat)
    (s : CheckState) (hk : t*B+b+1 < s.offsets.length)
    (hok : 0 ≤ s.offsets.getD (t*B+b) 0 ∧
      s.offsets.getD (t*B+b) 0 ≤ s.offsets.getD (t*B+b+1) 0 ∧
      s.offsets.getD (t*B+b+1) 0 ≤ numIndices) :
    segStep BoundsCheckMode.FATAL numIndices numRows B t b s =
      elemLoop BoundsCheckMode.FATAL numRows (s.offsets.getD (t*B+b) 0) 0
        (s.offsets.getD (t*B+b+1) 0 - s.offsets.getD (t*B+b) 0).toNat s := by
  have hr1 : readAt s.offsets ((t*B+b : Nat) : Int) =
      Except.ok (s.offsets.getD (t*B+b) 0) := readAt_nat _ _ (by omega)
  have hr2 : readAt s.offsets ((t*B+b+1 : Nat) : Int) =
      Except.ok (s.offsets.getD (t*B+b+1) 0) := readAt_nat _ _ hk
  simp only [segStep, hr1, hr2, bind, Except.bind, if_pos hok]

lemma segStep_fatal_bad (numIndices numRows : Int) (B t b : Nat)
    (s : CheckState) (hk : t*B+b+1 < s.offsets.length)
    (hbad : ¬(0 ≤ s.offsets.getD (t*B+b) 0 ∧
      s.offsets.getD (t*B+b) 0 ≤ s.offsets.getD (t*B+b+1) 0 ∧
      s.offsets.getD (t*B+b+1) 0 ≤ numIndices)) :
    segStep BoundsCheckMode.FATAL numIndices numRows B t b s =
      Except.error CheckErr.checkFail := by
  have hr1 : readAt s.offsets ((t*B+b : Nat) : Int) =
      Except.ok (s.offsets.getD (t*B+b) 0) := readAt_nat _ _ (by omega)
  have hr2 : readAt s.offsets ((t*B+b+1 : Nat) : Int) =
      Except.ok (s.offsets.getD (t*B+b+1) 0) := readAt_nat _ _ hk
  simp only [segStep, hr1, hr2, bind, Except.bind, if_neg hbad]

/-- Master specification of one segment step under WARNING or IGNORE: it
returns; it writes `offsets` only at the two positions of its segment,
leaving them in bounds and ordered; it rewrites position `t*B+b` only if that
value was out of `[0, numIndices]`; it touches `indices` only inside the final
segment, establishing element validity there; it only raises the warning
counter, and is the identity on valid segments. -/
lemma segStep_spec (mode : BoundsCheckMode)
    (hmode : mode = BoundsCheckMode.WARNING ∨ mode = BoundsCheckMode.IGNORE)
    (numIndices numRows : Int) (B t b : Nat) (s : CheckState)
    (hk : t*B+b+1 < s.offsets.length)
    (hN : numIndices = (s.indices.length : Int)) :
    ∃ s', segStep mode numIndices numRows B t b s = Except.ok s' ∧
      s'.offsets.length = s.offsets.length ∧
      s'.indices.length = s.indices.length ∧
      (∀ j : Nat, j ≠ t*B+b → j ≠ t*B+b+1 →
        s'.offsets.getD j 0 = s.offsets.getD j 0) ∧
      ((0 ≤ s.offsets.getD (t*B+b) 0 ∧ s.offsets.getD (t*B+b) 0 ≤ numIndices) →
        s'.offsets.getD (t*B+b) 0 = s.offsets.getD (t*B+b) 0) ∧
      (0 ≤ s'.offsets.getD (t*B+b) 0 ∧
        s'.offsets.getD (t*B+b) 0 ≤ s'.offsets.getD (t*B+b+1) 0 ∧
        s'.offsets.getD (t*B+b+1) 0 ≤ numIndices) ∧
      (∀ j : Nat, ¬(s'.offsets.getD (t*B+b) 0 ≤ (j : Int) ∧
          (j : Int) < s'.offsets.getD (t*B+b+1) 0) →
        s'.indices.getD j 0 = s.indices.getD j 0) ∧
      IndEvol s.indices s'.indices ∧
      (∀ j : Nat, s'.offsets.getD (t*B+b) 0 ≤ (j : Int) →
        (j : Int) < s'.offsets.getD (t*B+b+1) 0 →
        s'.indices.getD j 0 = -1 ∨
          (0 ≤ s'.indices.getD j 0 ∧ s'.indices.getD j 0 < max numRows 1)) ∧
      s.warning ≤ s'.warning ∧
      (mode = BoundsCheckMode.IGNORE →
        s'.warning = s.warning ∧ s'.diagCount = s.diagCount) ∧
      (WInv s → WInv s') ∧
      (SegValidAt numIndices numRows s.offsets s.indices (t*B+b) → s' = s) ∧
      (mode = BoundsCheckMode.WARNING → s'.warning = s.warning →
        s' = s ∧ SegValidAt numIndices numRows s.offsets s.indices (t*B+b)) ∧
      (mode = BoundsCheckMode.WARNING →
        segOk numIndices (s.offsets.getD (t*B+b) 0) (s.offsets.getD (t*B+b+1) 0) →
        s'.offsets = s.offsets ∧
        s'.warning = s.warning +
          (countRange s.indices numRows (s.offsets.getD (t*B+b) 0).toNat
            ((s.offsets.getD (t*B+b+1) 0).toNat -
              (s.offsets.getD (t*B+b) 0).toNat) : Int)) := by
  have hk0 : t*B+b < s.offsets.length := by omega
  rcases hmode with hm | hm
  · subst hm
    by_cases hviol : s.offsets.getD (t*B+b) 0 < 0 ∨
        s.offsets.getD (t*B+b+1) 0 < s.offsets.getD (t*B+b) 0 ∨
        numIndices < s.offsets.getD (t*B+b+1) 0
    · -- WARNING on a violating segment: count, clamp, write back, then scan
      set s2 : CheckState := { s with
        warning := s.warning + 1,
        diagCount := if s.warning = 0 then s.diagCount + 1 else s.diagCount,
        offsets := (s.offsets.set (t*B+b)
            (max 0 (min (s.offsets.getD (t*B+b) 0) numIndices))).set (t*B+b+1)
            (max (max 0 (min (s.offsets.getD (t*B+b) 0) numIndices))
              (min (s.offsets.getD (t*B+b+1) 0) numIndices)) } with hs2
      obtain ⟨s', hrun, hoff, hlen2, hframe, hevol, hpost, hmono, hign, hwinv,
        hnoop, hnoincr, hcount⟩ :=
        elemLoop_spec BoundsCheckMode.WARNING (Or.inl rfl) numRows
          (max 0 (min (s.offsets.getD (t*B+b) 0) numIndices)) (by omega)
          ((max (max 0 (min (s.offsets.getD (t*B+b) 0) numIndices))
              (min (s.offsets.getD (t*B+b+1) 0) numIndices) -
            max 0 (min (s.offsets.getD (t*B+b) 0) numIndices)).toNat) 0 s2
          (by
            have : s2.indices.length = s.indices.length := rfl
            rw [this]
            omega)
      have hs2off : s2.offsets = (s.offsets.set (t*B+b)
          (max 0 (min (s.offsets.getD (t*B+b) 0) numIndices))).set (t*B+b+1)
          (max (max 0 (min (s.offsets.getD (t*B+b) 0) numIndices))
            (min (s.offsets.getD (t*B+b+1) 0) numIndices)) := rfl
      have hgk : s'.offsets.getD (t*B+b) 0 =
          max 0 (min (s.offsets.getD (t*B+b) 0) numIndices) := by
        rw [hoff, hs2off, getD_set_ne _ _ _ _ (by omega),
          getD_set_self _ _ _ hk0]
      have hgk1 : s'.offsets.getD (t*B+b+1) 0 =
          max (max 0 (min (s.offsets.getD (t*B+b) 0) numIndices))
            (min (s.offsets.getD (t*B+b+1) 0) numIndices) := by
        rw [hoff, hs2off, getD_set_self _ _ _ (by rw [List.length_set]; omega)]
      have hw2 : s2.warning = s.warning + 1 := rfl
      refine ⟨s', ?_, ?_, ?_, ?_, ?_, ?_, ?_, hevol, ?_, ?_, ?_, ?_, ?_, ?_, ?_⟩
      · rw [segStep_warning_viol numIndices numRows B t b s hk hviol]
        exact hrun
      · rw [hoff, hs2off, List.length_set, List.length_set]
      · exact hlen2
      · intro j hj1 hj2
        rw [hoff, hs2off, getD_set_ne _ _ _ _ (by omega),
          getD_set_ne _ _ _ _ (by omega)]
      · intro hin
        rw [hgk]
        omega
      · rw [hgk, hgk1]
        refine ⟨by omega, by omega, by omega⟩
      · intro j hj
        rw [hgk, hgk1] at hj
        exact hframe j (by omega)
      · intro j hj1 hj2
        rw [hgk] at hj1
        rw [hgk1] at hj2
        exact hpost j (by omega) (by omega)
      · omega
      · intro h
        simp at h
      · intro hw
        refine hwinv ?_
        obtain ⟨hw0, hwd⟩ := hw
        constructor
        · show 0 ≤ s.warning + 1
          omega
        · show (if s.warning = 0 then s.diagCount + 1 else s.diagCount) =
            if s.warning + 1 = 0 then 0 else 1
          by_cases hz : s.warning = 0
          · rw [if_pos hz, if_neg (by omega), hwd, if_pos hz]
          · rw [if_neg hz, if_neg (by omega), hwd, if_neg hz]
      · intro hsv
        obtain ⟨⟨ha, hb, hc⟩, _⟩ := hsv
        exact absurd hviol (by omega)
      · intro _ hweq
        exact absurd hweq (by omega)
      · intro _ hseg
        obtain ⟨ha, hb, hc⟩ := hseg
        exact absurd hviol (by omega)
    · -- WARNING on an in-bounds segment: scan the original segment, no write
      obtain ⟨s', hrun, hoff, hlen2, hframe, hevol, hpost, hmono, hign, hwinv,
        hnoop, hnoincr, hcount⟩ :=
        elemLoop_spec BoundsCheckMode.WARNING (Or.inl rfl) numRows
          (s.offsets.getD (t*B+b) 0) (by omega)
          ((s.offsets.getD (t*B+b+1) 0 - s.offsets.getD (t*B+b) 0).toNat) 0 s
          (by omega)
      refine ⟨s', ?_, ?_, hlen2, ?_, ?_, ?_, ?_, hevol, ?_, hmono, ?_, hwinv,
        ?_, ?_, ?_⟩
      · rw [segStep_warning_ok numIndices numRows B t b s hk hviol]
        exact hrun
      · rw [hoff]
      · intro j _ _
        rw [hoff]
      · intro _
        rw [hoff]
      · rw [hoff]
        refine ⟨by omega, by omega, by omega⟩
      · intro j hj
        rw [hoff] at hj
        exact hframe j (by omega)
      · intro j hj1 hj2
        rw [hoff] at hj1 hj2
        exact hpost j (by omega) (by omega)
      · intro h
        simp at h
      · intro hsv
        obtain ⟨⟨ha, hb, hc⟩, helems⟩ := hsv
        exact hnoop (fun j hj1 hj2 => helems j (by omega) (by omega) (by omega))
      · intro _ hweq
        obtain ⟨hse, hgood⟩ := hnoincr rfl hweq
        refine ⟨hse, ⟨by omega, by omega, by omega⟩, ?_⟩
        intro j hjlen hj1 hj2
        exact hgood j (by omega) (by omega)
      · intro _ hseg
        refine ⟨hoff, ?_⟩
        rw [hcount rfl]
        have e1 : (s.offsets.getD (t*B+b) 0).toNat + 0 =
            (s.offsets.getD (t*B+b) 0).toNat := by omega
        have e2 : (s.offsets.getD (t*B+b+1) 0 - s.offsets.getD (t*B+b) 0).toNat =
            (s.offsets.getD (t*B+b+1) 0).toNat -
              (s.offsets.getD (t*B+b) 0).toNat := by omega
        rw [e1, e2]
  · subst hm
    -- IGNORE: always clamp and write back, then scan silently
    set s2 : CheckState := { s with
      offsets := (s.offsets.set (t*B+b)
          (max 0 (min (s.offsets.getD (t*B+b) 0) numIndices))).set (t*B+b+1)
          (max (max 0 (min (s.offsets.getD (t*B+b) 0) numIndices))
            (min (s.offsets.getD (t*B+b+1) 0) numIndices)) } with hs2
    obtain ⟨s', hrun, hoff, hlen2, hframe, hevol, hpost, hmono, hign, hwinv,
      hnoop, hnoincr, hcount⟩ :=
      elemLoop_spec BoundsCheckMode.IGNORE (Or.inr rfl) numRows
        (max 0 (min (s.offsets.getD (t*B+b) 0) numIndices)) (by omega)
        ((max (max 0 (min (s.offsets.getD (t*B+b) 0) numIndices))
            (min (s.offsets.getD (t*B+b+1) 0) numIndices) -
          max 0 (min (s.offsets.getD (t*B+b) 0) numIndices)).toNat) 0 s2
        (by
          have : s2.indices.length = s.indices.length := rfl
          rw [this]
          omega)
    have hs2off : s2.offsets = (s.offsets.set (t*B+b)
        (max 0 (min (s.offsets.getD (t*B+b) 0) numIndices))).set (t*B+b+1)
        (max (max 0 (min (s.offsets.getD (t*B+b) 0) numIndices))
          (min (s.offsets.getD (t*B+b+1) 0) numIndices)) := rfl
    have hgk : s'.offsets.getD (t*B+b) 0 =
        max 0 (min (s.offsets.getD (t*B+b) 0) numIndices) := by
      rw [hoff, hs2off, getD_set_ne _ _ _ _ (by omega),
        getD_set_self _ _ _ hk0]
    have hgk1 : s'.offsets.getD (t*B+b+1) 0 =
        max (max 0 (min (s.offsets.getD (t*B+b) 0) numIndices))
          (min (s.offsets.getD (t*B+b+1) 0) numIndices) := by
      rw [hoff, hs2off, getD_set_self _ _ _ (by rw [List.length_set]; omega)]
    refine ⟨s', ?_, ?_, hlen2, ?_, ?_, ?_, ?_, hevol, ?_, ?_, ?_, hwinv, ?_,
      ?_, ?_⟩
    · rw [segStep_ignore numIndices numRows B t b s hk]
      exact hrun
    · rw [hoff, hs2off, List.length_set, List.length_set]
    · intro j hj1 hj2
      rw [hoff, hs2off, getD_set_ne _ _ _ _ (by omega),
        getD_set_ne _ _ _ _ (by omega)]
    · intro hin
      rw [hgk]
      omega
    · rw [hgk, hgk1]
      refine ⟨by omega, by omega, by omega⟩
    · intro j hj
      rw [hgk, hgk1] at hj
      exact hframe j (by omega)
    · intro j hj1 hj2
      rw [hgk] at hj1
      rw [hgk1] at hj2
      exact hpost j (by omega) (by omega)
    · have : s2.warning = s.warning := rfl
      omega
    · intro _
      exact hign rfl
    · intro hsv
      obtain ⟨⟨ha, hb, hc⟩, helems⟩ := hsv
      have hstart2 : max 0 (min (s.offsets.getD (t*B+b) 0) numIndices) =
          s.offsets.getD (t*B+b) 0 := by omega
      have hend2 : max (s.offsets.getD (t*B+b) 0)
          (min (s.offsets.getD (t*B+b+1) 0) numIndices) =
          s.offsets.getD (t*B+b+1) 0 := by omega
      have hs2eq : s2 = s := by
        rw [hs2, hstart2, hend2, set_getD_self _ _ hk0]
        rw [set_getD_self _ _ hk]
      refine (hnoop ?_).trans hs2eq
      intro j hj1 hj2
      exact helems j (by omega) (by omega) (by omega)
    · intro h
      simp at h
    · intro h
      simp at h

lemma batchLoop_succ (mode : BoundsCheckMode) (numIndices numRows : Int)
    (B t b n : Nat) (s : CheckState) :
    batchLoop mode numIndices numRows B t b (n+1) s =
      segStep mode numIndices numRows B t b s >>= fun s1 =>
        batchLoop mode numIndices numRows B t (b+1) n s1 := rfl

lemma batchLoop_succ_ok (mode : BoundsCheckMode) (numIndices numRows : Int)
    (B t b n : Nat) (s s1 : CheckState)
    (h : segStep mode numIndices numRows B t b s = Except.ok s1) :
    batchLoop mode numIndices numRows B t b (n+1) s =
      batchLoop mode numIndices numRows B t (b+1) n s1 := by
  rw [batchLoop_succ, h]
  rfl

lemma batchLoop_succ_err (mode : BoundsCheckMode) (numIndices numRows : Int)
    (B t b n : Nat) (s : CheckState) (e : CheckErr)
    (h : segStep mode numIndices numRows B t b s = Except.error e) :
    batchLoop mode numIndices numRows B t b (n+1) s = Except.error e := by
  rw [batchLoop_succ, h]
  rfl

lemma tableLoop_succ (mode : BoundsCheckMode) (rowsPerTable : List Int)
    (numIndices : Int) (B t n : Nat) (s : CheckState) :
    tableLoop mode rowsPerTable numIndices B t (n+1) s =
      readAt rowsPerTable (t : Int) >>= fun numRows =>
        batchLoop mode numIndices numRows B t 0 B s >>= fun s1 =>
          tableLoop mode rowsPerTable numIndices B (t+1) n s1 := rfl

/-- Master specification of the batch loop over segments
`[t*B+b, t*B+b+n)` under WARNING or IGNORE. -/
lemma batchLoop_spec (mode : BoundsCheckMode)
    (hmode : mode = BoundsCheckMode.WARNING ∨ mode = BoundsCheckMode.IGNORE)
    (numIndices numRows : Int) (B t : Nat) :
    ∀ (n b : Nat) (s : CheckState),
      (n = 0 ∨ t*B+b+n < s.offsets.length) →
      numIndices = (s.indices.length : Int) →
      ∃ s', batchLoop mode numIndices numRows B t b n s = Except.ok s' ∧
        s'.offsets.length = s.offsets.length ∧
        s'.indices.length = s.indices.length ∧
        (∀ j : Nat, j < t*B+b ∨ t*B+b+n < j →
          s'.offsets.getD j 0 = s.offsets.getD j 0) ∧
        ((0 ≤ s.offsets.getD (t*B+b) 0 ∧ s.offsets.getD (t*B+b) 0 ≤ numIndices) →
          s'.offsets.getD (t*B+b) 0 = s.offsets.getD (t*B+b) 0) ∧
        (∀ k : Nat, t*B+b ≤ k → k < t*B+b+n →
          0 ≤ s'.offsets.getD k 0 ∧
          s'.offsets.getD k 0 ≤ s'.offsets.getD (k+1) 0 ∧
          s'.offsets.getD (k+1) 0 ≤ numIndices) ∧
        (∀ j : Nat, (∀ k : Nat, t*B+b ≤ k → k < t*B+b+n →
            ¬(s'.offsets.getD k 0 ≤ (j : Int) ∧
              (j : Int) < s'.offsets.getD (k+1) 0)) →
          s'.indices.getD j 0 = s.indices.getD j 0) ∧
        IndEvol s.indices s'.indices ∧
        (∀ k : Nat, t*B+b ≤ k → k < t*B+b+n → ∀ j : Nat,
          s'.offsets.getD k 0 ≤ (j : Int) →
          (j : Int) < s'.offsets.getD (k+1) 0 →
          s'.indices.getD j 0 = -1 ∨
            (0 ≤ s'.indices.getD j 0 ∧ s'.indices.getD j 0 < max numRows 1)) ∧
        s.warning ≤ s'.warning ∧
        (mode = BoundsCheckMode.IGNORE →
          s'.warning = s.warning ∧ s'.diagCount = s.diagCount) ∧
        (WInv s → WInv s') ∧
        ((∀ k : Nat, t*B+b ≤ k → k < t*B+b+n →
            SegValidAt numIndices numRows s.offsets s.indices k) → s' = s) ∧
        (mode = BoundsCheckMode.WARNING → s'.warning = s.warning →
          s' = s ∧ ∀ k : Nat, t*B+b ≤ k → k < t*B+b+n →
            SegValidAt numIndices numRows s.offsets s.indices k) := by
  intro n
  induction n with
  | zero =>
    intro b s _ _
    refine ⟨s, rfl, rfl, rfl, fun j _ => rfl, fun _ => rfl, ?_, fun j _ => rfl,
      indEvol_refl _, ?_, le_refl _, fun _ => ⟨rfl, rfl⟩, id, fun _ => rfl,
      fun _ _ => ⟨rfl, ?_⟩⟩
    · intro k h1 h2; omega
    · intro k h1 h2; omega
    · intro k h1 h2; omega
  | succ n ih =>
    intro b s hlen hN
    have hlen' : t*B+b+(n+1) < s.offsets.length := by
      rcases hlen with h | h
      · omega
      · exact h
    obtain ⟨s1, hrun1, holen1, hilen1, hoframe1, hostab1, hopost1, hiframe1,
      hevol1, hipost1, hmono1, hign1, hwinv1, hnoop1, hnoincr1, hcount1⟩ :=
      segStep_spec mode hmode numIndices numRows B t b s (by omega) hN
    obtain ⟨s', hrun2, holen2, hilen2, hoframe2, hostab2, hopost2, hiframe2,
      hevol2, hipost2, hmono2, hign2, hwinv2, hnoop2, hnoincr2⟩ :=
      ih (b+1) s1
        (by
          rcases Nat.eq_zero_or_pos n with h | h
          · exact Or.inl h
          · refine Or.inr ?_
            rw [holen1]
            omega)
        (by rw [hN, hilen1])
    have hkeep : s'.offsets.getD (t*B+b) 0 = s1.offsets.getD (t*B+b) 0 :=
      hoframe2 (t*B+b) (by omega)
    have hkeep1 : s'.offsets.getD (t*B+b+1) 0 = s1.offsets.getD (t*B+b+1) 0 := by
      have hb1 : t*B+(b+1) = t*B+b+1 := by omega
      have := hostab2
      rw [hb1] at this
      exact this ⟨hopost1.2.1.trans' hopost1.1, hopost1.2.2⟩
    refine ⟨s', ?_, ?_, ?_, ?_, ?_, ?_, ?_, indEvol_trans hevol1 hevol2, ?_,
      le_trans hmono1 hmono2, ?_, fun hw => hwinv2 (hwinv1 hw), ?_, ?_⟩
    · rw [batchLoop_succ_ok mode numIndices numRows B t b n s s1 hrun1]
      exact hrun2
    · rw [holen2, holen1]
    · rw [hilen2, hilen1]
    · intro j hj
      have h2 : s'.offsets.getD j 0 = s1.offsets.getD j 0 := by
        have hb1 : t*B+(b+1) = t*B+b+1 := by omega
        refine hoframe2 j ?_
        rw [hb1]
        omega
      rw [h2]
      exact hoframe1 j (by omega) (by omega)
    · intro hin
      rw [hkeep]
      exact hostab1 hin
    · intro k hk1 hk2
      rcases Nat.eq_or_lt_of_le hk1 with hk | hk
      · subst hk
        rw [hkeep, hkeep1]
        exact hopost1
      · refine hopost2 k (by omega) (by omega)
    · intro j hj
      have h2 : s'.indices.getD j 0 = s1.indices.getD j 0 := by
        refine hiframe2 j ?_
        intro k hk1 hk2
        exact hj k (by omega) (by omega)
      rw [h2]
      refine hiframe1 j ?_
      rw [← hkeep, ← hkeep1]
      exact hj (t*B+b) (by omega) (by omega)
    · intro k hk1 hk2 j hj1 hj2
      rcases Nat.eq_or_lt_of_le hk1 with hk | hk
      · subst hk
        rw [hkeep] at hj1
        rw [hkeep1] at hj2
        have hmid := hipost1 j hj1 hj2
        rcases hevol2 j with he | ⟨he, _⟩
        · rw [he]
          exact hmid
        · rw [he]
          exact Or.inr ⟨le_refl 0, lt_max_iff.mpr (Or.inr one_pos)⟩
      · exact hipost2 k (by omega) (by omega) j hj1 hj2
    · intro hI
      obtain ⟨hw1, hd1⟩ := hign1 hI
      obtain ⟨hw2, hd2⟩ := hign2 hI
      exact ⟨hw2.trans hw1, hd2.trans hd1⟩
    · intro hall
      have hs1eq : s1 = s := hnoop1 (hall (t*B+b) (by omega) (by omega))
      have hs'eq : s' = s1 := by
        refine hnoop2 ?_
        intro k hk1 hk2
        rw [hs1eq]
        exact hall k (by omega) (by omega)
      exact hs'eq.trans hs1eq
    · intro hW hweq
      have hw1eq : s1.warning = s.warning := by omega
      have hw2eq : s'.warning = s1.warning := by omega
      obtain ⟨hse1, hsv1⟩ := hnoincr1 hW hw1eq
      obtain ⟨hse2, hsv2⟩ := hnoincr2 hW hw2eq
      refine ⟨hse2.trans hse1, ?_⟩
      intro k hk1 hk2
      rcases Nat.eq_or_lt_of_le hk1 with hk | hk
      · subst hk
        exact hsv1
      · have := hsv2 k (by omega) (by omega)
        rw [hse1] at this
        exact this

lemma tableLoop_succ_ok (mode : BoundsCheckMode) (rowsPerTable : List Int)
    (numIndices : Int) (B t n : Nat) (s s1 : CheckState)
    (hr : t < rowsPerTable.length)
    (hb : batchLoop mode numIndices (rowsPerTable.getD t 0) B t 0 B s =
      Except.ok s1) :
    tableLoop mode rowsPerTable numIndices B t (n+1) s =
      tableLoop mode rowsPerTable numIndices B (t+1) n s1 := by
  rw [tableLoop_succ, readAt_nat _ _ hr]
  simp only [bind, Except.bind]
  rw [hb]

lemma tableLoop_succ_err (mode : BoundsCheckMode) (rowsPerTable : List Int)
    (numIndices : Int) (B t n : Nat) (s : CheckState) (e : CheckErr)
    (hr : t < rowsPerTable.length)
    (hb : batchLoop mode numIndices (rowsPerTable.getD t 0) B t 0 B s =
      Except.error e) :
    tableLoop mode rowsPerTable numIndices B t (n+1) s = Except.error e := by
  rw [tableLoop_succ, readAt_nat _ _ hr]
  simp only [bind, Except.bind]
  rw [hb]

lemma tableLoop_stall (mode : BoundsCheckMode) (rowsPerTable : List Int)
    (numIndices : Int) :
    ∀ (n t : Nat) (s : CheckState), t + n ≤ rowsPerTable.length →
      tableLoop mode rowsPerTable numIndices 0 t n s = Except.ok s := by
  intro n
  induction n with
  | zero => intro t s _; rfl
  | succ n ih =>
    intro t s htn
    rw [tableLoop_succ_ok mode rowsPerTable numIndices 0 t n s s (by omega) rfl]
    exact ih (t+1) s (by omega)

/-- Master specification of the table loop over tables `[t, t+n)` (segments
`[t*B, (t+n)*B)`) under WARNING or IGNORE. -/
lemma tableLoop_spec (mode : BoundsCheckMode)
    (hmode : mode = BoundsCheckMode.WARNING ∨ mode = BoundsCheckMode.IGNORE)
    (rowsPerTable : List Int) (numIndices : Int) (B : Nat) :
    ∀ (n t : Nat) (s : CheckState),
      t + n ≤ rowsPerTable.length →
      (B = 0 ∨ (t+n)*B < s.offsets.length) →
      numIndices = (s.indices.length : Int) →
      ∃ s', tableLoop mode rowsPerTable numIndices B t n s = Except.ok s' ∧
        s'.offsets.length = s.offsets.length ∧
        s'.indices.length = s.indices.length ∧
        (∀ j : Nat, j < t*B ∨ (t+n)*B < j →
          s'.offsets.getD j 0 = s.offsets.getD j 0) ∧
        ((0 ≤ s.offsets.getD (t*B) 0 ∧ s.offsets.getD (t*B) 0 ≤ numIndices) →
          s'.offsets.getD (t*B) 0 = s.offsets.getD (t*B) 0) ∧
        (∀ k : Nat, t*B ≤ k → k < (t+n)*B →
          0 ≤ s'.offsets.getD k 0 ∧
          s'.offsets.getD k 0 ≤ s'.offsets.getD (k+1) 0 ∧
          s'.offsets.getD (k+1) 0 ≤ numIndices) ∧
        (∀ j : Nat, (∀ k : Nat, t*B ≤ k → k < (t+n)*B →
            ¬(s'.offsets.getD k 0 ≤ (j : Int) ∧
              (j : Int) < s'.offsets.getD (k+1) 0)) →
          s'.indices.getD j 0 = s.indices.getD j 0) ∧
        IndEvol s.indices s'.indices ∧
        (∀ u : Nat, t ≤ u → u < t + n → ∀ b : Nat, b < B → ∀ j : Nat,
          s'.offsets.getD (u*B+b) 0 ≤ (j : Int) →
          (j : Int) < s'.offsets.getD (u*B+b+1) 0 →
          s'.indices.getD j 0 = -1 ∨
            (0 ≤ s'.indices.getD j 0 ∧
              s'.indices.getD j 0 < max (rowsPerTable.getD u 0) 1)) ∧
        s.warning ≤ s'.warning ∧
        (mode = BoundsCheckMode.IGNORE →
          s'.warning = s.warning ∧ s'.diagCount = s.diagCount) ∧
        (WInv s → WInv s') ∧
        ((∀ u : Nat, t ≤ u → u < t + n → ∀ b : Nat, b < B →
            SegValidAt numIndices (rowsPerTable.getD u 0) s.offsets s.indices
              (u*B+b)) → s' = s) ∧
        (mode = BoundsCheckMode.WARNING → s'.warning = s.warning →
          s' = s ∧ ∀ u : Nat, t ≤ u → u < t + n → ∀ b : Nat, b < B →
            SegValidAt numIndices (rowsPerTable.getD u 0) s.offsets s.indices
              (u*B+b)) := by
  rcases Nat.eq_zero_or_pos B with hB | hB
  · subst hB
    intro n t s htn _ _
    refine ⟨s, tableLoop_stall mode rowsPerTable numIndices n t s htn, rfl, rfl,
      fun j _ => rfl, fun _ => rfl, ?_, fun j _ => rfl, indEvol_refl _, ?_,
      le_refl _, fun _ => ⟨rfl, rfl⟩, id, fun _ => rfl, fun _ _ => ⟨rfl, ?_⟩⟩
    · intro k h1 h2; omega
    · intro u _ _ b hb; omega
    · intro u _ _ b hb; omega
  · intro n
    induction n with
    | zero =>
      intro t s _ _ _
      have e00 : (t+0)*B = t*B := by ring
      refine ⟨s, rfl, rfl, rfl, fun j _ => rfl, fun _ => rfl, ?_,
        fun j _ => rfl, indEvol_refl _, ?_, le_refl _, fun _ => ⟨rfl, rfl⟩, id,
        fun _ => rfl, fun _ _ => ⟨rfl, ?_⟩⟩
      · intro k h1 h2; omega
      · intro u h1 h2; omega
      · intro u h1 h2; omega
    | succ n ih =>
      intro t s htn hpos hN
      have hmul1 : (t+1)*B = t*B + B := by ring
      have hmul3 : (t+(n+1))*B = t*B + B + n*B := by ring
      have hmul4 : (t+1+n)*B = t*B + B + n*B := by ring
      have hpos' : (t+(n+1))*B < s.offsets.length := by
        rcases hpos with h | h
        · omega
        · exact h
      obtain ⟨s1, hrun1, holen1, hilen1, hoframe1, hostab1, hopost1, hiframe1,
        hevol1, hipost1, hmono1, hign1, hwinv1, hnoop1, hnoincr1⟩ :=
        batchLoop_spec mode hmode numIndices (rowsPerTable.getD t 0) B t B 0 s
          (Or.inr (by omega)) hN
      have e0 : t*B+0 = t*B := by omega
      have eB : t*B+B = (t+1)*B := by omega
      rw [e0] at hostab1
      rw [e0, eB] at hoframe1 hopost1 hiframe1 hipost1 hnoop1 hnoincr1
      obtain ⟨s', hrun2, holen2, hilen2, hoframe2, hostab2, hopost2, hiframe2,
        hevol2, hipost2, hmono2, hign2, hwinv2, hnoop2, hnoincr2⟩ :=
        ih (t+1) s1 (by omega)
          (Or.inr (by rw [holen1]; omega)) (by rw [hN, hilen1])
      have hkeepB : s'.offsets.getD ((t+1)*B) 0 = s1.offsets.getD ((t+1)*B) 0 := by
        refine hostab2 ?_
        have h1 := hopost1 ((t+1)*B - 1) (by omega) (by omega)
        have e1 : (t+1)*B - 1 + 1 = (t+1)*B := by omega
        rw [e1] at h1
        exact ⟨le_trans h1.1 h1.2.1, h1.2.2⟩
      have hoeq : ∀ k : Nat, k ≤ (t+1)*B →
          s'.offsets.getD k 0 = s1.offsets.getD k 0 := by
        intro k hk
        rcases Nat.eq_or_lt_of_le hk with h | h
        · subst h; exact hkeepB
        · exact hoframe2 k (by omega)
      refine ⟨s', ?_, ?_, ?_, ?_, ?_, ?_, ?_, indEvol_trans hevol1 hevol2, ?_,
        le_trans hmono1 hmono2, ?_, fun hw => hwinv2 (hwinv1 hw), ?_, ?_⟩
      · rw [tableLoop_succ_ok mode rowsPerTable numIndices B t n s s1
          (by omega) hrun1]
        exact hrun2
      · rw [holen2, holen1]
      · rw [hilen2, hilen1]
      · intro j hj
        have h2 : s'.offsets.getD j 0 = s1.offsets.getD j 0 := by
          refine hoframe2 j ?_
          omega
        rw [h2]
        exact hoframe1 j (by omega)
      · intro hin
        have h2 : s'.offsets.getD (t*B) 0 = s1.offsets.getD (t*B) 0 :=
          hoeq (t*B) (by omega)
        rw [h2]
        exact hostab1 hin
      · intro k hk1 hk2
        by_cases hk : k < (t+1)*B
        · have h2 : s'.offsets.getD k 0 = s1.offsets.getD k 0 :=
            hoeq k (by omega)
          have h3 : s'.offsets.getD (k+1) 0 = s1.offsets.getD (k+1) 0 :=
            hoeq (k+1) (by omega)
          rw [h2, h3]
          exact hopost1 k (by omega) (by omega)
        · exact hopost2 k (by omega) (by omega)
      · intro j hj
        have h2 : s'.indices.getD j 0 = s1.indices.getD j 0 := by
          refine hiframe2 j ?_
          intro k hk1 hk2
          exact hj k (by omega) (by omega)
        rw [h2]
        refine hiframe1 j ?_
        intro k hk1 hk2
        rw [← hoeq k (by omega), ← hoeq (k+1) (by omega)]
        exact hj k (by omega) (by omega)
      · intro u hu1 hu2 b hb' j hj1 hj2
        rcases Nat.eq_or_lt_of_le hu1 with hu | hu
        · subst hu
          rw [hoeq (t*B+b) (by omega)] at hj1
          rw [hoeq (t*B+b+1) (by omega)] at hj2
          have hmid := hipost1 (t*B+b) (by omega) (by omega) j hj1 hj2
          rcases hevol2 j with he | ⟨he, _⟩
          · rw [he]
            exact hmid
          · rw [he]
            exact Or.inr ⟨le_refl 0, lt_max_iff.mpr (Or.inr one_pos)⟩
        · exact hipost2 u (by omega) (by omega) b hb' j hj1 hj2
      · intro hI
        obtain ⟨hw1, hd1⟩ := hign1 hI
        obtain ⟨hw2, hd2⟩ := hign2 hI
        exact ⟨hw2.trans hw1, hd2.trans hd1⟩
      · intro hall
        have hs1eq : s1 = s := by
          refine hnoop1 ?_
          intro k hk1 hk2
          have hbv : k - t*B < B := by omega
          have hkk : k = t*B + (k - t*B) := by omega
          rw [hkk]
          exact hall t (by omega) (by omega) (k - t*B) hbv
        have hs'eq : s' = s1 := by
          refine hnoop2 ?_
          intro u hu1 hu2 b hb'
          rw [hs1eq]
          exact hall u (by omega) (by omega) b hb'
        exact hs'eq.trans hs1eq
      · intro hW hweq
        have hw1eq : s1.warning = s.warning := by omega
        have hw2eq : s'.warning = s1.warning := by omega
        obtain ⟨hse1, hsv1⟩ := hnoincr1 hW hw1eq
        obtain ⟨hse2, hsv2⟩ := hnoincr2 hW hw2eq
        refine ⟨hse2.trans hse1, ?_⟩
        intro u hu1 hu2 b hb'
        rcases Nat.eq_or_lt_of_le hu1 with hu | hu
        · subst hu
          exact hsv1 (t*B+b) (by omega) (by omega)
        · have := hsv2 u (by omega) (by omega) b hb'
          rw [hse1] at this
          exact this

/-- Top-level specification of a WARNING or IGNORE call of
`bounds_check_indices_cpu`: the call returns; lengths are preserved; offsets
beyond the processed range are untouched; every processed segment ends up in
bounds and ordered; `indices` positions outside every final segment are
untouched; entries only ever evolve by keeping their value or being zeroed
(never when they hold the sentinel); every entry covered by a final segment of
table `u` ends up the sentinel or in `[0, max RowCounts[u] 1)`; IGNORE leaves
the counter at its initial value with no diagnostic; WARNING couples the
diagnostic count to the counter; and a fully valid input is left untouched. -/
lemma run_spec (mode : BoundsCheckMode)
    (hmode : mode = BoundsCheckMode.WARNING ∨ mode = BoundsCheckMode.IGNORE)
    (rowsPerTable indices offsets : List Int) (warningInit : Int) (B : Nat)
    (hB : B = (offsets.length - 1) / rowsPerTable.length) :
    ∃ s', bounds_check_indices_cpu mode rowsPerTable indices offsets warningInit
        = Except.ok s' ∧
      s'.offsets.length = offsets.length ∧
      s'.indices.length = indices.length ∧
      (∀ j : Nat, rowsPerTable.length * B < j →
        s'.offsets.getD j 0 = offsets.getD j 0) ∧
      (∀ k : Nat, k < rowsPerTable.length * B →
        0 ≤ s'.offsets.getD k 0 ∧
        s'.offsets.getD k 0 ≤ s'.offsets.getD (k+1) 0 ∧
        s'.offsets.getD (k+1) 0 ≤ (indices.length : Int)) ∧
      (∀ j : Nat, (∀ k : Nat, k < rowsPerTable.length * B →
          ¬(s'.offsets.getD k 0 ≤ (j : Int) ∧
            (j : Int) < s'.offsets.getD (k+1) 0)) →
        s'.indices.getD j 0 = indices.getD j 0) ∧
      IndEvol indices s'.indices ∧
      (∀ u : Nat, u < rowsPerTable.length → ∀ b : Nat, b < B → ∀ j : Nat,
        s'.offsets.getD (u*B+b) 0 ≤ (j : Int) →
        (j : Int) < s'.offsets.getD (u*B+b+1) 0 →
        s'.indices.getD j 0 = -1 ∨
          (0 ≤ s'.indices.getD j 0 ∧
            s'.indices.getD j 0 < max (rowsPerTable.getD u 0) 1)) ∧
      (mode = BoundsCheckMode.IGNORE →
        s'.warning = warningInit ∧ s'.diagCount = 0) ∧
      (mode = BoundsCheckMode.WARNING →
        0 ≤ s'.warning ∧
        s'.diagCount = if s'.warning = 0 then 0 else 1) ∧
      ((∀ u : Nat, u < rowsPerTable.length → ∀ b : Nat, b < B →
          SegValidAt (indices.length : Int) (rowsPerTable.getD u 0) offsets
            indices (u*B+b)) →
        s' = ⟨offsets, indices,
          if mode = BoundsCheckMode.WARNING then 0 else warningInit, 0⟩) ∧
      (mode = BoundsCheckMode.WARNING → s'.warning = 0 →
        s' = ⟨offsets, indices, 0, 0⟩ ∧
        ∀ u : Nat, u < rowsPerTable.length → ∀ b : Nat, b < B →
          SegValidAt (indices.length : Int) (rowsPerTable.getD u 0) offsets
            indices (u*B+b)) := by
  subst hB
  set warning0 : Int :=
    if mode = BoundsCheckMode.WARNING then 0 else warningInit with hw0
  set s0 : CheckState := ⟨offsets, indices, warning0, 0⟩ with hs0
  have hposB : (offsets.length - 1) / rowsPerTable.length = 0 ∨
      (0 + rowsPerTable.length) *
        ((offsets.length - 1) / rowsPerTable.length) < s0.offsets.length := by
    rcases Nat.eq_zero_or_pos offsets.length with hl | hl
    · left
      have h1 : offsets.length - 1 = 0 := by omega
      rw [h1, Nat.zero_div]
    · right
      have h2 := Nat.div_mul_le_self (offsets.length - 1) rowsPerTable.length
      have h3 : s0.offsets.length = offsets.length := rfl
      have h4 : (0 + rowsPerTable.length) *
          ((offsets.length - 1) / rowsPerTable.length) =
          ((offsets.length - 1) / rowsPerTable.length) * rowsPerTable.length :=
        by ring
      omega
  obtain ⟨s', hrun, holen, hilen, hoframe, hostab, hopost, hiframe, hevol,
    hipost, hmono, hign, hwinv, hnoop, hnoincr⟩ :=
    tableLoop_spec mode hmode rowsPerTable (indices.length : Int)
      ((offsets.length - 1) / rowsPerTable.length) rowsPerTable.length 0 s0
      (by omega) hposB rfl
  have hdef : bounds_check_indices_cpu mode rowsPerTable indices offsets
      warningInit = tableLoop mode rowsPerTable (indices.length : Int)
      ((offsets.length - 1) / rowsPerTable.length) 0 rowsPerTable.length s0 :=
    rfl
  have eZ : 0 * ((offsets.length - 1) / rowsPerTable.length) = 0 := by ring
  have eT : (0 + rowsPerTable.length) *
      ((offsets.length - 1) / rowsPerTable.length) =
      rowsPerTable.length * ((offsets.length - 1) / rowsPerTable.length) :=
    by ring
  have e0T : 0 + rowsPerTable.length = rowsPerTable.length := by omega
  rw [eZ, eT] at hoframe hopost hiframe
  rw [e0T] at hipost hnoop hnoincr
  have hWinv0 : mode = BoundsCheckMode.WARNING → WInv s0 := by
    intro hW
    constructor
    · show (0:Int) ≤ warning0
      rw [hw0, hW]
      simp
    · show (0:Nat) = if warning0 = 0 then 0 else 1
      rw [hw0, hW]
      simp
  refine ⟨s', ?_, holen, hilen, ?_, ?_, ?_, hevol, ?_, ?_, ?_, ?_, ?_⟩
  · rw [hdef]
    exact hrun
  · intro j hj
    exact hoframe j (Or.inr hj)
  · intro k hk
    exact hopost k (Nat.zero_le k) hk
  · intro j hj
    exact hiframe j (fun k _ hk2 => hj k hk2)
  · intro u hu b hb j hj1 hj2
    exact hipost u (Nat.zero_le u) hu b hb j hj1 hj2
  · intro hI
    obtain ⟨h1, h2⟩ := hign hI
    refine ⟨h1.trans ?_, h2⟩
    show warning0 = warningInit
    rw [hw0, hI]
    rfl
  · intro hW
    obtain ⟨h1, h2⟩ := hwinv (hWinv0 hW)
    exact ⟨h1, h2⟩
  · intro hall
    have := hnoop (fun u _ hu2 b hb => hall u hu2 b hb)
    exact this
  · intro hW hzero
    have hw0z : warning0 = 0 := by
      rw [hw0, hW]
      simp
    obtain ⟨hse, hsv⟩ := hnoincr hW (by rw [hzero]; exact hw0z.symm)
    constructor
    · rw [hse, hs0, hw0z]
    · exact fun u hu b hb => hsv u (Nat.zero_le u) hu b hb

/-- FATAL dichotomy at the element level: the loop succeeds without touching
the state iff every covered element is acceptable, and otherwise aborts with
`checkFail`. -/
lemma elemLoop_fatal (numRows indicesStart : Int) (hstart : 0 ≤ indicesStart) :
    ∀ (n l : Nat) (s : CheckState),
      indicesStart.toNat + l + n ≤ s.indices.length →
      ((∀ j : Nat, indicesStart.toNat + l ≤ j → j < indicesStart.toNat + l + n →
          GoodElem numRows (s.indices.getD j 0)) ∧
        elemLoop BoundsCheckMode.FATAL numRows indicesStart l n s =
          Except.ok s) ∨
      ((¬ ∀ j : Nat, indicesStart.toNat + l ≤ j →
          j < indicesStart.toNat + l + n →
          GoodElem numRows (s.indices.getD j 0)) ∧
        elemLoop BoundsCheckMode.FATAL numRows indicesStart l n s =
          Except.error CheckErr.checkFail) := by
  intro n
  induction n with
  | zero =>
    intro l s _
    exact Or.inl ⟨fun j h1 h2 => absurd h2 (by omega), rfl⟩
  | succ n ih =>
    intro l s hlen
    have h0 : (0:Int) ≤ indicesStart + (l : Int) := by omega
    have h1 : (indicesStart + (l : Int)).toNat < s.indices.length := by omega
    have hq : (indicesStart + (l : Int)).toNat = indicesStart.toNat + l := by
      omega
    by_cases hGood : GoodElem numRows
        (s.indices.getD (indicesStart + (l : Int)).toNat 0)
    · have hstep : elemStep BoundsCheckMode.FATAL numRows indicesStart l s =
          Except.ok s := by
        rcases hGood with hm1 | ⟨hge, hlt⟩
        · exact elemStep_sentinel _ numRows indicesStart l s h0 h1 hm1
        · refine elemStep_fatal_good numRows indicesStart l s h0 h1 ?_ ⟨hge, hlt⟩
          intro hm1
          rw [hm1] at hge
          omega
      rcases ih (l+1) s (by omega) with ⟨hAll, hrun⟩ | ⟨hnAll, hrun⟩
      · refine Or.inl ⟨?_, ?_⟩
        · intro j hj1 hj2
          rcases Nat.eq_or_lt_of_le hj1 with hj | hj
          · rw [← hj, ← hq]
            exact hGood
          · exact hAll j (by omega) (by omega)
        · rw [elemLoop_succ_ok _ _ _ _ _ _ _ hstep]
          exact hrun
      · refine Or.inr ⟨?_, ?_⟩
        · intro hAllfull
          exact hnAll (fun j hj1 hj2 => hAllfull j (by omega) (by omega))
        · rw [elemLoop_succ_ok _ _ _ _ _ _ _ hstep]
          exact hrun
    · have hidx : s.indices.getD (indicesStart + (l : Int)).toNat 0 ≠ -1 := by
        intro h
        exact hGood (Or.inl h)
      have hstep : elemStep BoundsCheckMode.FATAL numRows indicesStart l s =
          Except.error CheckErr.checkFail := by
        refine elemStep_fatal_bad numRows indicesStart l s h0 h1 hidx ?_
        intro hgd
        exact hGood (Or.inr hgd)
      refine Or.inr ⟨?_, elemLoop_succ_err _ _ _ _ _ _ _ hstep⟩
      intro hAllfull
      refine hGood ?_
      rw [hq]
      exact hAllfull (indicesStart.toNat + l) (le_refl _) (by omega)

/-- FATAL dichotomy at the segment level. -/
lemma segStep_fatal_spec (numIndices numRows : Int) (B t b : Nat)
    (s : CheckState) (hk : t*B+b+1 < s.offsets.length)
    (hN : numIndices = (s.indices.length : Int)) :
    (SegValidAt numIndices numRows s.offsets s.indices (t*B+b) ∧
      segStep BoundsCheckMode.FATAL numIndices numRows B t b s =
        Except.ok s) ∨
    (¬ SegValidAt numIndices numRows s.offsets s.indices (t*B+b) ∧
      segStep BoundsCheckMode.FATAL numIndices numRows B t b s =
        Except.error CheckErr.checkFail) := by
  by_cases hseg : 0 ≤ s.offsets.getD (t*B+b) 0 ∧
      s.offsets.getD (t*B+b) 0 ≤ s.offsets.getD (t*B+b+1) 0 ∧
      s.offsets.getD (t*B+b+1) 0 ≤ numIndices
  · rw [segStep_fatal_ok numIndices numRows B t b s hk hseg]
    rcases elemLoop_fatal numRows (s.offsets.getD (t*B+b) 0) hseg.1
        ((s.offsets.getD (t*B+b+1) 0 - s.offsets.getD (t*B+b) 0).toNat) 0 s
        (by omega) with ⟨hAll, hrun⟩ | ⟨hnAll, hrun⟩
    · refine Or.inl ⟨⟨hseg, ?_⟩, hrun⟩
      intro j hjlen hj1 hj2
      exact hAll j (by omega) (by omega)
    · refine Or.inr ⟨?_, hrun⟩
      intro hsv
      refine hnAll ?_
      intro j hj1 hj2
      exact hsv.2 j (by omega) (by omega) (by omega)
  · refine Or.inr ⟨?_, segStep_fatal_bad numIndices numRows B t b s hk hseg⟩
    intro hsv
    exact hseg hsv.1

/-- FATAL dichotomy at the batch-loop level. -/
lemma batchLoop_fatal (numIndices numRows : Int) (B t : Nat) :
    ∀ (n b : Nat) (s : CheckState),
      (n = 0 ∨ t*B+b+n < s.offsets.length) →
      numIndices = (s.indices.length : Int) →
      ((∀ k : Nat, t*B+b ≤ k → k < t*B+b+n →
          SegValidAt numIndices numRows s.offsets s.indices k) ∧
        batchLoop BoundsCheckMode.FATAL numIndices numRows B t b n s =
          Except.ok s) ∨
      ((¬ ∀ k : Nat, t*B+b ≤ k → k < t*B+b+n →
          SegValidAt numIndices numRows s.offsets s.indices k) ∧
        batchLoop BoundsCheckMode.FATAL numIndices numRows B t b n s =
          Except.error CheckErr.checkFail) := by
  intro n
  induction n with
  | zero =>
    intro b s _ _
    exact Or.inl ⟨fun k h1 h2 => absurd h2 (by omega), rfl⟩
  | succ n ih =>
    intro b s hlen hN
    have hlen' : t*B+b+(n+1) < s.offsets.length := by
      rcases hlen with h | h
      · omega
      · exact h
    rcases segStep_fatal_spec numIndices numRows B t b s (by omega) hN with
      ⟨hsv1, hrun1⟩ | ⟨hnsv1, hrun1⟩
    · rcases ih (b+1) s (Or.inr (by omega)) hN with
        ⟨hAll, hrun⟩ | ⟨hnAll, hrun⟩
      · refine Or.inl ⟨?_, ?_⟩
        · intro k hk1 hk2
          rcases Nat.eq_or_lt_of_le hk1 with hk | hk
          · subst hk
            exact hsv1
          · exact hAll k (by omega) (by omega)
        · rw [batchLoop_succ_ok _ _ _ _ _ _ _ _ _ hrun1]
          exact hrun
      · refine Or.inr ⟨?_, ?_⟩
        · intro hAllfull
          exact hnAll (fun k hk1 hk2 => hAllfull k (by omega) (by omega))
        · rw [batchLoop_succ_ok _ _ _ _ _ _ _ _ _ hrun1]
          exact hrun
    · refine Or.inr ⟨?_, batchLoop_succ_err _ _ _ _ _ _ _ _ _ hrun1⟩
      intro hAllfull
      exact hnsv1 (hAllfull (t*B+b) (le_refl _) (by omega))

/-- FATAL dichotomy at the table-loop level. -/
lemma tableLoop_fatal (rowsPerTable : List Int) (numIndices : Int) (B : Nat) :
    ∀ (n t : Nat) (s : CheckState),
      t + n ≤ rowsPerTable.length →
      (B = 0 ∨ (t+n)*B < s.offsets.length) →
      numIndices = (s.indices.length : Int) →
      ((∀ u : Nat, t ≤ u → u < t + n → ∀ b : Nat, b < B →
          SegValidAt numIndices (rowsPerTable.getD u 0) s.offsets s.indices
            (u*B+b)) ∧
        tableLoop BoundsCheckMode.FATAL rowsPerTable numIndices B t n s =
          Except.ok s) ∨
      ((¬ ∀ u : Nat, t ≤ u → u < t + n → ∀ b : Nat, b < B →
          SegValidAt numIndices (rowsPerTable.getD u 0) s.offsets s.indices
            (u*B+b)) ∧
        tableLoop BoundsCheckMode.FATAL rowsPerTable numIndices B t n s =
          Except.error CheckErr.checkFail) := by
  rcases Nat.eq_zero_or_pos B with hB | hB
  · subst hB
    intro n t s htn _ _
    refine Or.inl ⟨fun u _ _ b hb => absurd hb (by omega), ?_⟩
    exact tableLoop_stall BoundsCheckMode.FATAL rowsPerTable numIndices n t s htn
  · intro n
    induction n with
    | zero =>
      intro t s _ _ _
      exact Or.inl ⟨fun u h1 h2 => absurd h2 (by omega), rfl⟩
    | succ n ih =>
      intro t s htn hpos hN
      have hmul1 : (t+1)*B = t*B + B := by ring
      have hmul3 : (t+(n+1))*B = t*B + B + n*B := by ring
      have hmul4 : (t+1+n)*B = t*B + B + n*B := by ring
      have hpos' : (t+(n+1))*B < s.offsets.length := by
        rcases hpos with h | h
        · omega
        · exact h
      rcases batchLoop_fatal numIndices (rowsPerTable.getD t 0) B t B 0 s
          (Or.inr (by omega)) hN with ⟨hsvB, hrunB⟩ | ⟨hnsvB, hrunB⟩
      · rcases ih (t+1) s (by omega) (Or.inr (by omega)) hN with
          ⟨hAll, hrun⟩ | ⟨hnAll, hrun⟩
        · refine Or.inl ⟨?_, ?_⟩
          · intro u hu1 hu2 b hb'
            rcases Nat.eq_or_lt_of_le hu1 with hu | hu
            · subst hu
              exact hsvB (t*B+b) (by omega) (by omega)
            · exact hAll u (by omega) (by omega) b hb'
          · rw [tableLoop_succ_ok _ _ _ _ _ _ _ _ (by omega) hrunB]
            exact hrun
        · refine Or.inr ⟨?_, ?_⟩
          · intro hAllfull
            exact hnAll (fun u hu1 hu2 b hb' =>
              hAllfull u (by omega) (by omega) b hb')
          · rw [tableLoop_succ_ok _ _ _ _ _ _ _ _ (by omega) hrunB]
            exact hrun
      · refine Or.inr ⟨?_, tableLoop_succ_err _ _ _ _ _ _ _ _ (by omega) hrunB⟩
        intro hAllfull
        refine hnsvB ?_
        intro k hk1 hk2
        have hkk : k = t*B + (k - t*B) := by omega
        rw [hkk]
        exact hAllfull t (by omega) (by omega) (k - t*B) (by omega)

/-- FATAL dichotomy for the whole call: either the input is valid and the call
returns with all buffers untouched and the warning counter left alone, or some
violation exists and the call aborts with `checkFail`. -/
lemma run_fatal (rowsPerTable indices offsets : List Int) (warningInit : Int)
    (B : Nat) (hB : B = (offsets.length - 1) / rowsPerTable.length) :
    ((∀ u : Nat, u < rowsPerTable.length → ∀ b : Nat, b < B →
        SegValidAt (indices.length : Int) (rowsPerTable.getD u 0) offsets
          indices (u*B+b)) ∧
      bounds_check_indices_cpu BoundsCheckMode.FATAL rowsPerTable indices
        offsets warningInit = Except.ok ⟨offsets, indices, warningInit, 0⟩) ∨
    ((¬ ∀ u : Nat, u < rowsPerTable.length → ∀ b : Nat, b < B →
        SegValidAt (indices.length : Int) (rowsPerTable.getD u 0) offsets
          indices (u*B+b)) ∧
      bounds_check_indices_cpu BoundsCheckMode.FATAL rowsPerTable indices
        offsets warningInit = Except.error CheckErr.checkFail) := by
  subst hB
  set s0 : CheckState := ⟨offsets, indices, warningInit, 0⟩ with hs0
  have hposB : (offsets.length - 1) / rowsPerTable.length = 0 ∨
      (0 + rowsPerTable.length) *
        ((offsets.length - 1) / rowsPerTable.length) < s0.offsets.length := by
    rcases Nat.eq_zero_or_pos offsets.length with hl | hl
    · left
      have h1 : offsets.length - 1 = 0 := by omega
      rw [h1, Nat.zero_div]
    · right
      have h2 := Nat.div_mul_le_self (offsets.length - 1) rowsPerTable.length
      have h3 : s0.offsets.length = offsets.length := rfl
      have h4 : (0 + rowsPerTable.length) *
          ((offsets.length - 1) / rowsPerTable.length) =
          ((offsets.length - 1) / rowsPerTable.length) * rowsPerTable.length :=
        by ring
      omega
  have hdef : bounds_check_indices_cpu BoundsCheckMode.FATAL rowsPerTable
      indices offsets warningInit = tableLoop BoundsCheckMode.FATAL
      rowsPerTable (indices.length : Int)
      ((offsets.length - 1) / rowsPerTable.length) 0 rowsPerTable.length s0 :=
    rfl
  have e0T : 0 + rowsPerTable.length = rowsPerTable.length := by omega
  rcases tableLoop_fatal rowsPerTable (indices.length : Int)
      ((offsets.length - 1) / rowsPerTable.length) rowsPerTable.length 0 s0
      (by omega) hposB rfl with ⟨hAll, hrun⟩ | ⟨hnAll, hrun⟩
  · rw [e0T] at hAll
    refine Or.inl ⟨fun u hu b hb => hAll u (Nat.zero_le u) hu b hb, ?_⟩
    rw [hdef]
    exact hrun
  · rw [e0T] at hnAll
    refine Or.inr ⟨?_, ?_⟩
    · intro hAllfull
      exact hnAll (fun u _ hu b hb => hAllfull u hu b hb)
    · rw [hdef]
      exact hrun

/-- WARNING and IGNORE perform identical writes to `indices` at the element
level: run from two states with the same `indices`, both loops return and
produce the same `indices`, leaving `offsets` alone. -/
lemma elemLoop_WI (numRows indicesStart : Int) (hstart : 0 ≤ indicesStart) :
    ∀ (n l : Nat) (s1 s2 : CheckState), s1.indices = s2.indices →
      indicesStart.toNat + l + n ≤ s1.indices.length →
      ∃ r1 r2,
        elemLoop BoundsCheckMode.WARNING numRows indicesStart l n s1 =
          Except.ok r1 ∧
        elemLoop BoundsCheckMode.IGNORE numRows indicesStart l n s2 =
          Except.ok r2 ∧
        r1.offsets = s1.offsets ∧ r2.offsets = s2.offsets ∧
        r1.indices = r2.indices ∧ r1.indices.length = s1.indices.length := by
  intro n
  induction n with
  | zero =>
    intro l s1 s2 hieq _
    exact ⟨s1, s2, rfl, rfl, rfl, rfl, hieq, rfl⟩
  | succ n ih =>
    intro l s1 s2 hieq hlen
    have h0 : (0:Int) ≤ indicesStart + (l : Int) := by omega
    have h1 : (indicesStart + (l : Int)).toNat < s1.indices.length := by omega
    have h1' : (indicesStart + (l : Int)).toNat < s2.indices.length := by
      rw [← hieq]
      exact h1
    by_cases hGood : GoodElem numRows
        (s1.indices.getD (indicesStart + (l : Int)).toNat 0)
    · have hstep1 : elemStep BoundsCheckMode.WARNING numRows indicesStart l s1 =
          Except.ok s1 := by
        rcases hGood with hm1 | ⟨hge, hlt⟩
        · exact elemStep_sentinel _ numRows indicesStart l s1 h0 h1 hm1
        · exact elemStep_good _ (Or.inl rfl) numRows indicesStart l s1 h0 h1
            (by omega) (by omega)
      have hGood2 : GoodElem numRows
          (s2.indices.getD (indicesStart + (l : Int)).toNat 0) := by
        rw [← hieq]
        exact hGood
      have hstep2 : elemStep BoundsCheckMode.IGNORE numRows indicesStart l s2 =
          Except.ok s2 := by
        rcases hGood2 with hm1 | ⟨hge, hlt⟩
        · exact elemStep_sentinel _ numRows indicesStart l s2 h0 h1' hm1
        · exact elemStep_good _ (Or.inr rfl) numRows indicesStart l s2 h0 h1'
            (by omega) (by omega)
      obtain ⟨r1, r2, hr1, hr2, ho1, ho2, hind, hlen'⟩ :=
        ih (l+1) s1 s2 hieq (by omega)
      exact ⟨r1, r2,
        (elemLoop_succ_ok _ _ _ _ _ _ _ hstep1).trans hr1,
        (elemLoop_succ_ok _ _ _ _ _ _ _ hstep2).trans hr2, ho1, ho2, hind, hlen'⟩
    · have hidx : s1.indices.getD (indicesStart + (l : Int)).toNat 0 ≠ -1 := by
        intro h
        exact hGood (Or.inl h)
      have hbad : s1.indices.getD (indicesStart + (l : Int)).toNat 0 < 0 ∨
          numRows ≤ s1.indices.getD (indicesStart + (l : Int)).toNat 0 := by
        by_contra h
        exact hGood (Or.inr (by omega))
      have hidx2 : s2.indices.getD (indicesStart + (l : Int)).toNat 0 ≠ -1 := by
        rw [← hieq]
        exact hidx
      have hbad2 : s2.indices.getD (indicesStart + (l : Int)).toNat 0 < 0 ∨
          numRows ≤ s2.indices.getD (indicesStart + (l : Int)).toNat 0 := by
        rw [← hieq]
        exact hbad
      have hstep1 := elemStep_bad_warning numRows indicesStart l s1 h0 h1
        hidx hbad
      have hstep2 := elemStep_bad_ignore numRows indicesStart l s2 h0 h1'
        hidx2 hbad2
      obtain ⟨r1, r2, hr1, hr2, ho1, ho2, hind, hlen'⟩ :=
        ih (l+1)
          { s1 with
            warning := s1.warning + 1,
            diagCount := if s1.warning = 0 then s1.diagCount + 1
              else s1.diagCount,
            indices := s1.indices.set (indicesStart + (l : Int)).toNat 0 }
          { s2 with
            indices := s2.indices.set (indicesStart + (l : Int)).toNat 0 }
          (by
            show s1.indices.set _ 0 = s2.indices.set _ 0
            rw [hieq])
          (by
            show indicesStart.toNat + (l+1) + n ≤ (s1.indices.set _ 0).length
            rw [List.length_set]
            omega)
      refine ⟨r1, r2,
        (elemLoop_succ_ok _ _ _ _ _ _ _ hstep1).trans hr1,
        (elemLoop_succ_ok _ _ _ _ _ _ _ hstep2).trans hr2, ho1, ho2, hind, ?_⟩
      rw [hlen']
      show (s1.indices.set _ 0).length = s1.indices.length
      rw [List.length_set]

/-- WARNING and IGNORE perform identical writes at the segment level. -/
lemma segStep_WI (numIndices numRows : Int) (B t b : Nat)
    (s1 s2 : CheckState) (hoeq : s1.offsets = s2.offsets)
    (hieq : s1.indices = s2.indices) (hk : t*B+b+1 < s1.offsets.length)
    (hN : numIndices = (s1.indices.length : Int)) :
    ∃ r1 r2,
      segStep BoundsCheckMode.WARNING numIndices numRows B t b s1 =
        Except.ok r1 ∧
      segStep BoundsCheckMode.IGNORE numIndices numRows B t b s2 =
        Except.ok r2 ∧
      r1.offsets = r2.offsets ∧ r1.indices = r2.indices ∧
      r1.offsets.length = s1.offsets.length ∧
      r1.indices.length = s1.indices.length := by
  have hk2 : t*B+b+1 < s2.offsets.length := by
    rw [← hoeq]
    exact hk
  by_cases hviol : s1.offsets.getD (t*B+b) 0 < 0 ∨
      s1.offsets.getD (t*B+b+1) 0 < s1.offsets.getD (t*B+b) 0 ∨
      numIndices < s1.offsets.getD (t*B+b+1) 0
  · rw [segStep_warning_viol numIndices numRows B t b s1 hk hviol,
      segStep_ignore numIndices numRows B t b s2 hk2]
    rw [hoeq]
    obtain ⟨r1, r2, hr1, hr2, ho1, ho2, hind, hlen'⟩ :=
      elemLoop_WI numRows
        (max 0 (min (s2.offsets.getD (t*B+b) 0) numIndices)) (by omega)
        ((max (max 0 (min (s2.offsets.getD (t*B+b) 0) numIndices))
            (min (s2.offsets.getD (t*B+b+1) 0) numIndices) -
          max 0 (min (s2.offsets.getD (t*B+b) 0) numIndices)).toNat) 0
        { s1 with
          warning := s1.warning + 1,
          diagCount := if s1.warning = 0 then s1.diagCount + 1
            else s1.diagCount,
          offsets := (s2.offsets.set (t*B+b)
              (max 0 (min (s2.offsets.getD (t*B+b) 0) numIndices))).set (t*B+b+1)
              (max (max 0 (min (s2.offsets.getD (t*B+b) 0) numIndices))
                (min (s2.offsets.getD (t*B+b+1) 0) numIndices)) }
        { s2 with
          offsets := (s2.offsets.set (t*B+b)
              (max 0 (min (s2.offsets.getD (t*B+b) 0) numIndices))).set (t*B+b+1)
              (max (max 0 (min (s2.offsets.getD (t*B+b) 0) numIndices))
                (min (s2.offsets.getD (t*B+b+1) 0) numIndices)) }
        hieq
        (by
          show _ + 0 + _ ≤ s1.indices.length
          omega)
    refine ⟨r1, r2, hr1, hr2, ?_, hind, ?_, ?_⟩
    · rw [ho1, ho2]
    · rw [ho1]
      show ((s2.offsets.set _ _).set _ _).length = s2.offsets.length
      rw [List.length_set, List.length_set]
    · rw [hlen']
  · rw [segStep_warning_ok numIndices numRows B t b s1 hk hviol,
      segStep_ignore numIndices numRows B t b s2 hk2]
    have hviol2 : ¬(s2.offsets.getD (t*B+b) 0 < 0 ∨
        s2.offsets.getD (t*B+b+1) 0 < s2.offsets.getD (t*B+b) 0 ∨
        numIndices < s2.offsets.getD (t*B+b+1) 0) := by
      rw [← hoeq]
      exact hviol
    have hstart2 : max 0 (min (s2.offsets.getD (t*B+b) 0) numIndices) =
        s2.offsets.getD (t*B+b) 0 := by omega
    have hend2 : max (s2.offsets.getD (t*B+b) 0)
        (min (s2.offsets.getD (t*B+b+1) 0) numIndices) =
        s2.offsets.getD (t*B+b+1) 0 := by omega
    rw [hstart2, hend2, set_getD_self _ _ (by omega), set_getD_self _ _ hk2]
    have hs2eta : ({ s2 with offsets := s2.offsets } : CheckState) = s2 := rfl
    rw [hs2eta, hoeq]
    obtain ⟨r1, r2, hr1, hr2, ho1, ho2, hind, hlen'⟩ :=
      elemLoop_WI numRows (s2.offsets.getD (t*B+b) 0) (by omega)
        ((s2.offsets.getD (t*B+b+1) 0 - s2.offsets.getD (t*B+b) 0).toNat) 0
        s1 s2 hieq (by omega)
    refine ⟨r1, r2, hr1, hr2, ?_, hind, ?_, hlen'⟩
    · rw [ho1, ho2]
      exact hoeq
    · rw [ho1, hoeq]

/-- WARNING and IGNORE perform identical writes at the batch-loop level. -/
lemma batchLoop_WI (numIndices numRows : Int) (B t : Nat) :
    ∀ (n b : Nat) (s1 s2 : CheckState), s1.offsets = s2.offsets →
      s1.indices = s2.indices →
      (n = 0 ∨ t*B+b+n < s1.offsets.length) →
      numIndices = (s1.indices.length : Int) →
      ∃ r1 r2,
        batchLoop BoundsCheckMode.WARNING numIndices numRows B t b n s1 =
          Except.ok r1 ∧
        batchLoop BoundsCheckMode.IGNORE numIndices numRows B t b n s2 =
          Except.ok r2 ∧
        r1.offsets = r2.offsets ∧ r1.indices = r2.indices ∧
        r1.offsets.length = s1.offsets.length ∧
        r1.indices.length = s1.indices.length := by
  intro n
  induction n with
  | zero =>
    intro b s1 s2 hoeq hieq _ _
    exact ⟨s1, s2, rfl, rfl, hoeq, hieq, rfl, rfl⟩
  | succ n ih =>
    intro b s1 s2 hoeq hieq hlen hN
    have hlen' : t*B+b+(n+1) < s1.offsets.length := by
      rcases hlen with h | h
      · omega
      · exact h
    obtain ⟨m1, m2, hm1, hm2, hmoeq, hmieq, hmolen, hmilen⟩ :=
      segStep_WI numIndices numRows B t b s1 s2 hoeq hieq (by omega) hN
    obtain ⟨r1, r2, hr1, hr2, hroeq, hrieq, hrolen, hrilen⟩ :=
      ih (b+1) m1 m2 hmoeq hmieq (Or.inr (by omega)) (by rw [hN, hmilen])
    exact ⟨r1, r2,
      (batchLoop_succ_ok _ _ _ _ _ _ _ _ _ hm1).trans hr1,
      (batchLoop_succ_ok _ _ _ _ _ _ _ _ _ hm2).trans hr2,
      hroeq, hrieq, hrolen.trans hmolen, hrilen.trans hmilen⟩

/-- WARNING and IGNORE perform identical writes at the table-loop level. -/
lemma tableLoop_WI (rowsPerTable : List Int) (numIndices : Int) (B : Nat) :
    ∀ (n t : Nat) (s1 s2 : CheckState), s1.offsets = s2.offsets →
      s1.indices = s2.indices →
      t + n ≤ rowsPerTable.length →
      (B = 0 ∨ (t+n)*B < s1.offsets.length) →
      numIndices = (s1.indices.length : Int) →
      ∃ r1 r2,
        tableLoop BoundsCheckMode.WARNING rowsPerTable numIndices B t n s1 =
          Except.ok r1 ∧
        tableLoop BoundsCheckMode.IGNORE rowsPerTable numIndices B t n s2 =
          Except.ok r2 ∧
        r1.offsets = r2.offsets ∧ r1.indices = r2.indices := by
  rcases Nat.eq_zero_or_pos B with hB | hB
  · subst hB
    intro n t s1 s2 hoeq hieq htn _ _
    exact ⟨s1, s2,
      tableLoop_stall BoundsCheckMode.WARNING rowsPerTable numIndices n t s1 htn,
      tableLoop_stall BoundsCheckMode.IGNORE rowsPerTable numIndices n t s2 htn,
      hoeq, hieq⟩
  · intro n
    induction n with
    | zero =>
      intro t s1 s2 hoeq hieq _ _ _
      exact ⟨s1, s2, rfl, rfl, hoeq, hieq⟩
    | succ n ih =>
      intro t s1 s2 hoeq hieq htn hpos hN
      have hmul1 : (t+1)*B = t*B + B := by ring
      have hmul3 : (t+(n+1))*B = t*B + B + n*B := by ring
      have hmul4 : (t+1+n)*B = t*B + B + n*B := by ring
      have hpos' : (t+(n+1))*B < s1.offsets.length := by
        rcases hpos with h | h
        · omega
        · exact h
      obtain ⟨m1, m2, hm1, hm2, hmoeq, hmieq, hmolen, hmilen⟩ :=
        batchLoop_WI numIndices (rowsPerTable.getD t 0) B t B 0 s1 s2 hoeq
          hieq (Or.inr (by omega)) hN
      obtain ⟨r1, r2, hr1, hr2, hroeq, hrieq⟩ :=
        ih (t+1) m1 m2 hmoeq hmieq (by omega)
          (Or.inr (by rw [hmolen]; omega)) (by rw [hN, hmilen])
      exact ⟨r1, r2,
        (tableLoop_succ_ok _ _ _ _ _ _ _ _ (by omega) hm1).trans hr1,
        (tableLoop_succ_ok _ _ _ _ _ _ _ _ (by omega) hm2).trans hr2,
        hroeq, hrieq⟩

lemma rangeViolations_succ (off ind : List Int) (numRows : Int) (k n : Nat) :
    rangeViolations off ind numRows k (n+1) =
      segViolations off ind numRows k +
        rangeViolations off ind numRows (k+1) n := rfl

lemma tableViolations_succ (rc off ind : List Int) (B t n : Nat) :
    tableViolations rc off ind B t (n+1) =
      rangeViolations off ind (rc.getD t 0) (t*B) B +
        tableViolations rc off ind B (t+1) n := rfl

lemma tableViolations_B0 (rc off ind : List Int) :
    ∀ (n t : Nat), tableViolations rc off ind 0 t n = 0 := by
  intro n
  induction n with
  | zero => intro t; rfl
  | succ n ih =>
    intro t
    rw [tableViolations_succ, ih (t+1)]
    rfl

/-- Chained monotonicity of offsets over a run of in-bounds segments. -/
lemma offsets_le_of_segOk (numIndices : Int) (off : List Int) (k n : Nat)
    (h : ∀ m, m < n →
      segOk numIndices (off.getD (k+m) 0) (off.getD (k+m+1) 0)) :
    ∀ d a : Nat, k ≤ a → a + d ≤ k + n →
      off.getD a 0 ≤ off.getD (a+d) 0 := by
  intro d
  induction d with
  | zero => intro a _ _; exact le_refl _
  | succ d ih =>
    intro a ha hd
    have h1 : off.getD a 0 ≤ off.getD (a+d) 0 := ih a ha (by omega)
    have h2 := h (a+d-k) (by omega)
    have e : k+(a+d-k) = a+d := by omega
    rw [e] at h2
    have e2 : a+d+1 = a+(d+1) := by omega
    rw [e2] at h2
    exact le_trans h1 h2.2.1

lemma rangeViolations_congr (off ind1 ind2 : List Int) (numRows : Int)
    (lo : Int) (hlen : ind1.length = ind2.length)
    (hj : ∀ j : Nat, lo ≤ (j : Int) → ind1.getD j 0 = ind2.getD j 0) :
    ∀ (n k : Nat), (∀ m, m < n → lo ≤ off.getD (k+m) 0) →
      rangeViolations off ind1 numRows k n =
        rangeViolations off ind2 numRows k n := by
  intro n
  induction n with
  | zero => intro k _; rfl
  | succ n ih =>
    intro k hlo
    rw [rangeViolations_succ, rangeViolations_succ,
      ih (k+1) (by
        intro m hm
        have e : k+1+m = k+(m+1) := by omega
        rw [e]
        exact hlo (m+1) (by omega))]
    congr 1
    unfold segViolations
    rw [hlen]
    congr 1
    have hlo0 : lo ≤ off.getD k 0 := by
      have := hlo 0 (by omega)
      simpa using this
    refine countRange_congr ind1 ind2 numRows _ _ ?_
    intro j hj1 hj2
    refine hj j ?_
    omega

lemma tableViolations_congr (rc off ind1 ind2 : List Int) (B : Nat) (lo : Int)
    (hlen : ind1.length = ind2.length)
    (hj : ∀ j : Nat, lo ≤ (j : Int) → ind1.getD j 0 = ind2.getD j 0) :
    ∀ (n t : Nat), (∀ u, t ≤ u → u < t + n → ∀ b, b < B →
        lo ≤ off.getD (u*B+b) 0) →
      tableViolations rc off ind1 B t n = tableViolations rc off ind2 B t n := by
  intro n
  induction n with
  | zero => intro t _; rfl
  | succ n ih =>
    intro t hlo
    rw [tableViolations_succ, tableViolations_succ,
      ih (t+1) (fun u hu1 hu2 b hb => hlo u (by omega) (by omega) b hb)]
    congr 1
    refine rangeViolations_congr off ind1 ind2 (rc.getD t 0) lo hlen hj B
      (t*B) ?_
    intro m hm
    exact hlo t (le_refl t) (by omega) m hm

/-- Per-table in-bounds segments, flattened to consecutive positions. -/
lemma segOkAll_flat (numIndices : Int) (off : List Int) (B : Nat) (hB : 0 < B)
    (t n : Nat)
    (hall : ∀ u, t ≤ u → u < t+n → ∀ b, b < B →
      segOk numIndices (off.getD (u*B+b) 0) (off.getD (u*B+b+1) 0)) :
    ∀ m, m < n*B →
      segOk numIndices (off.getD (t*B+m) 0) (off.getD (t*B+m+1) 0) := by
  intro m hm
  have hdm := Nat.div_add_mod m B
  have e4 : (m / B) * B = B * (m / B) := by ring
  have e1 : (t + m / B) * B = t*B + (m / B) * B := by ring
  have e2 : t*B + m = (t + m / B)*B + m % B := by omega
  rw [e2]
  have e6 : n * B = B * n := by ring
  have hdiv : m / B < n := Nat.div_lt_of_lt_mul (by omega)
  exact hall (t + m / B) (Nat.le_add_right t (m / B))
    (Nat.add_lt_add_left hdiv t) (m % B) (Nat.mod_lt m hB)

/-- Exact violation count of the batch loop under WARNING when all its
segments are in bounds: the offsets are untouched, the indices outside the
processed window are untouched, and the counter gains exactly the number of
unacceptable covered elements. -/
lemma batchLoop_count (numIndices numRows : Int) (B t : Nat) :
    ∀ (n b : Nat) (s : CheckState),
      (n = 0 ∨ t*B+b+n < s.offsets.length) →
      numIndices = (s.indices.length : Int) →
      (∀ m, m < n → segOk numIndices (s.offsets.getD (t*B+b+m) 0)
        (s.offsets.getD (t*B+b+m+1) 0)) →
      ∃ s', batchLoop BoundsCheckMode.WARNING numIndices numRows B t b n s =
          Except.ok s' ∧
        s'.offsets = s.offsets ∧
        s'.indices.length = s.indices.length ∧
        (∀ j : Nat, ¬(s.offsets.getD (t*B+b) 0 ≤ (j : Int) ∧
            (j : Int) < s.offsets.getD (t*B+b+n) 0) →
          s'.indices.getD j 0 = s.indices.getD j 0) ∧
        s'.warning = s.warning +
          (rangeViolations s.offsets s.indices numRows (t*B+b) n : Int) := by
  intro n
  induction n with
  | zero =>
    intro b s _ _ _
    refine ⟨s, rfl, rfl, rfl, fun j _ => rfl, ?_⟩
    simp [rangeViolations]
  | succ n ih =>
    intro b s hlen hN hSegOk
    have hlen' : t*B+b+(n+1) < s.offsets.length := by
      rcases hlen with h | h
      · omega
      · exact h
    have hseg0 : segOk numIndices (s.offsets.getD (t*B+b) 0)
        (s.offsets.getD (t*B+b+1) 0) := by
      have := hSegOk 0 (by omega)
      simpa using this
    obtain ⟨s1, hrun1, holen1, hilen1, hoframe1, hostab1, hopost1, hiframe1,
      hevol1, hipost1, hmono1, hign1, hwinv1, hnoop1, hnoincr1, hcount1⟩ :=
      segStep_spec BoundsCheckMode.WARNING (Or.inl rfl) numIndices numRows B
        t b s (by omega) hN
    obtain ⟨hs1off, hs1warn⟩ := hcount1 rfl hseg0
    obtain ⟨s', hrun2, hs'off, hs'ilen, hiframe2, hs'warn⟩ :=
      ih (b+1) s1
        (Or.inr (by rw [hs1off]; omega))
        (by rw [hN, hilen1])
        (by
          intro m hm
          rw [hs1off]
          have e1 : t*B+(b+1)+m = t*B+b+(m+1) := by omega
          rw [e1]
          exact hSegOk (m+1) (by omega))
    have hmono : ∀ d a : Nat, t*B+b ≤ a → a + d ≤ t*B+b+(n+1) →
        s.offsets.getD a 0 ≤ s.offsets.getD (a+d) 0 :=
      offsets_le_of_segOk numIndices s.offsets (t*B+b) (n+1) hSegOk
    have hseg1 : s1.indices.length = s.indices.length := hilen1
    have hindeq : ∀ j : Nat,
        s.offsets.getD (t*B+b+1) 0 ≤ (j : Int) →
        s1.indices.getD j 0 = s.indices.getD j 0 := by
      intro j hj
      refine hiframe1 j ?_
      intro ⟨hj1, hj2⟩
      rw [hs1off] at hj1 hj2
      omega
    refine ⟨s', ?_, hs'off.trans hs1off, hs'ilen.trans hilen1, ?_, ?_⟩
    · rw [batchLoop_succ_ok _ _ _ _ _ _ _ _ _ hrun1]
      exact hrun2
    · intro j hj
      have hm1 : s.offsets.getD (t*B+b) 0 ≤ s.offsets.getD (t*B+b+1) 0 :=
        hseg0.2.1
      have hm2 : s.offsets.getD (t*B+b+1) 0 ≤ s.offsets.getD (t*B+b+(n+1)) 0 := by
        have := hmono n (t*B+b+1) (by omega) (by omega)
        have e : t*B+b+1+n = t*B+b+(n+1) := by omega
        rw [e] at this
        exact this
      have h2 : s'.indices.getD j 0 = s1.indices.getD j 0 := by
        refine hiframe2 j ?_
        rw [hs1off]
        have e' : t*B+(b+1) = t*B+b+1 := by omega
        rw [e']
        have e : t*B+b+1+n = t*B+b+(n+1) := by omega
        rw [e]
        omega
      rw [h2]
      refine hiframe1 j ?_
      intro ⟨hj1, hj2⟩
      rw [hs1off] at hj1 hj2
      omega
    · rw [hs'warn, hs1warn]
      have hcongr : rangeViolations s1.offsets s1.indices numRows (t*B+(b+1)) n
          = rangeViolations s.offsets s.indices numRows (t*B+b+1) n := by
        rw [hs1off]
        refine rangeViolations_congr s.offsets s1.indices s.indices numRows
          (s.offsets.getD (t*B+b+1) 0) hseg1 hindeq n (t*B+b+1) ?_
        intro m hm
        exact hmono m (t*B+b+1) (by omega) (by omega)
      rw [hcongr, rangeViolations_succ]
      have hsegv : segViolations s.offsets s.indices numRows (t*B+b) =
          countRange s.indices numRows (s.offsets.getD (t*B+b) 0).toNat
            ((s.offsets.getD (t*B+b+1) 0).toNat -
              (s.offsets.getD (t*B+b) 0).toNat) := by
        unfold segViolations
        rw [← hN]
        rw [if_pos hseg0, Nat.zero_add]
      rw [hsegv]
      push_cast
      ring

/-- Exact violation count of the table loop under WARNING when every segment
is in bounds. -/
lemma tableLoop_count (rowsPerTable : List Int) (numIndices : Int) (B : Nat) :
    ∀ (n t : Nat) (s : CheckState),
      t + n ≤ rowsPerTable.length →
      (B = 0 ∨ (t+n)*B < s.offsets.length) →
      numIndices = (s.indices.length : Int) →
      (∀ u, t ≤ u → u < t+n → ∀ b, b < B →
        segOk numIndices (s.offsets.getD (u*B+b) 0)
          (s.offsets.getD (u*B+b+1) 0)) →
      ∃ s', tableLoop BoundsCheckMode.WARNING rowsPerTable numIndices B t n s =
          Except.ok s' ∧
        s'.offsets = s.offsets ∧
        s'.indices.length = s.indices.length ∧
        (∀ j : Nat, ¬(s.offsets.getD (t*B) 0 ≤ (j : Int) ∧
            (j : Int) < s.offsets.getD ((t+n)*B) 0) →
          s'.indices.getD j 0 = s.indices.getD j 0) ∧
        s'.warning = s.warning +
          (tableViolations rowsPerTable s.offsets s.indices B t n : Int) := by
  rcases Nat.eq_zero_or_pos B with hB | hB
  · subst hB
    intro n t s htn _ _ _
    refine ⟨s, tableLoop_stall _ rowsPerTable numIndices n t s htn, rfl, rfl,
      fun j _ => rfl, ?_⟩
    rw [tableViolations_B0]
    simp
  · intro n
    induction n with
    | zero =>
      intro t s _ _ _ _
      refine ⟨s, rfl, rfl, rfl, fun j _ => rfl, ?_⟩
      show s.warning = s.warning + ((0:Nat) : Int)
      simp
    | succ n ih =>
      intro t s htn hpos hN hall
      have hmul1 : (t+1)*B = t*B + B := by ring
      have hmul3 : (t+(n+1))*B = t*B + B + n*B := by ring
      have hmul4 : (t+1+n)*B = t*B + B + n*B := by ring
      have hmul5 : (n+1)*B = B + n*B := by ring
      have hpos' : (t+(n+1))*B < s.offsets.length := by
        rcases hpos with h | h
        · omega
        · exact h
      obtain ⟨s1, hrun1, hs1off, hs1ilen, hframe1, hs1warn⟩ :=
        batchLoop_count numIndices (rowsPerTable.getD t 0) B t B 0 s
          (Or.inr (by omega)) hN
          (by
            intro m hm
            have g0 : t*B+0 = t*B := by omega
            rw [g0]
            exact hall t (le_refl t) (by omega) m hm)
      have g0 : t*B+0 = t*B := by omega
      rw [g0] at hframe1 hs1warn
      obtain ⟨s', hrun2, hs'off2, hs'ilen2, hframe2, hs'warn2⟩ :=
        ih (t+1) s1 (by omega) (Or.inr (by rw [hs1off]; omega))
          (by rw [hN, hs1ilen])
          (by
            intro u hu1 hu2 b hb
            rw [hs1off]
            exact hall u (by omega) (by omega) b hb)
      have hflat := segOkAll_flat numIndices s.offsets B hB t (n+1) hall
      have hmono := offsets_le_of_segOk numIndices s.offsets (t*B) ((n+1)*B)
        hflat
      have m1 : s.offsets.getD (t*B) 0 ≤ s.offsets.getD (t*B+B) 0 :=
        hmono B (t*B) (le_refl _) (by omega)
      have m2 : s.offsets.getD (t*B+B) 0 ≤ s.offsets.getD (t*B+B+n*B) 0 :=
        hmono (n*B) (t*B+B) (by omega) (by omega)
      have g1 : s1.offsets.getD ((t+1)*B) 0 = s.offsets.getD (t*B+B) 0 := by
        rw [hs1off, hmul1]
      have g2 : s1.offsets.getD ((t+1+n)*B) 0 =
          s.offsets.getD (t*B+B+n*B) 0 := by
        rw [hs1off, hmul4]
      have g3 : s.offsets.getD ((t+(n+1))*B) 0 =
          s.offsets.getD (t*B+B+n*B) 0 := by
        rw [hmul3]
      have hupper : ∀ j : Nat, s.offsets.getD (t*B+B) 0 ≤ (j : Int) →
          s1.indices.getD j 0 = s.indices.getD j 0 := by
        intro j hj
        refine hframe1 j ?_
        intro ⟨hj1, hj2⟩
        omega
      refine ⟨s', ?_, hs'off2.trans hs1off, hs'ilen2.trans hs1ilen, ?_, ?_⟩
      · rw [tableLoop_succ_ok _ _ _ _ _ _ _ _ (by omega) hrun1]
        exact hrun2
      · intro j hj
        rw [g3] at hj
        have h2 : s'.indices.getD j 0 = s1.indices.getD j 0 := by
          refine hframe2 j ?_
          rw [g1, g2]
          omega
        rw [h2]
        refine hframe1 j ?_
        intro ⟨hj1, hj2⟩
        omega
      · have hcongr : tableViolations rowsPerTable s1.offsets s1.indices B
            (t+1) n = tableViolations rowsPerTable s.offsets s.indices B
            (t+1) n := by
          rw [hs1off]
          refine tableViolations_congr rowsPerTable s.offsets s1.indices
            s.indices B (s.offsets.getD (t*B+B) 0) hs1ilen hupper n (t+1) ?_
          intro u hu1 hu2 b hb
          have e5 : (u-(t+1))*B + (t+1)*B = u*B := by
            rw [← Nat.add_mul, Nat.sub_add_cancel hu1]
          have e7 : u*B+b = t*B+B+((u-(t+1))*B+b) := by omega
          have hle : (u-(t+1)+1) * B ≤ n * B :=
            Nat.mul_le_mul_right B (by omega)
          have e9 : (u-(t+1)+1)*B = (u-(t+1))*B + B := by ring
          rw [e7]
          exact hmono ((u-(t+1))*B+b) (t*B+B) (by omega) (by omega)
        rw [hs'warn2, hcongr, hs1warn, tableViolations_succ]
        push_cast
        ring

/-- Under WARNING, when every segment of the input is in bounds, the final
warning counter is exactly the static violation tally of the input. -/
lemma run_count (rowsPerTable indices offsets : List Int) (warningInit : Int)
    (B : Nat) (hB : B = (offsets.length - 1) / rowsPerTable.length)
    (hall : ∀ u, u < rowsPerTable.length → ∀ b, b < B →
      segOk (indices.length : Int) (offsets.getD (u*B+b) 0)
        (offsets.getD (u*B+b+1) 0)) :
    ∃ s', bounds_check_indices_cpu BoundsCheckMode.WARNING rowsPerTable indices
        offsets warningInit = Except.ok s' ∧
      s'.warning =
        (staticViolationTotal rowsPerTable offsets indices B : Int) := by
  subst hB
  set s0 : CheckState := ⟨offsets, indices, 0, 0⟩ with hs0
  have hposB : (offsets.length - 1) / rowsPerTable.length = 0 ∨
      (0 + rowsPerTable.length) *
        ((offsets.length - 1) / rowsPerTable.length) < s0.offsets.length := by
    rcases Nat.eq_zero_or_pos offsets.length with hl | hl
    · left
      have h1 : offsets.length - 1 = 0 := by omega
      rw [h1, Nat.zero_div]
    · right
      have h2 := Nat.div_mul_le_self (offsets.length - 1) rowsPerTable.length
      have h3 : s0.offsets.length = offsets.length := rfl
      have h4 : (0 + rowsPerTable.length) *
          ((offsets.length - 1) / rowsPerTable.length) =
          ((offsets.length - 1) / rowsPerTable.length) * rowsPerTable.length :=
        by ring
      omega
  obtain ⟨s', hrun, hsoff, hsilen, hframe, hwarn⟩ :=
    tableLoop_count rowsPerTable (indices.length : Int)
      ((offsets.length - 1) / rowsPerTable.length) rowsPerTable.length 0 s0
      (by omega) hposB rfl
      (by
        intro u _ hu2 b hb
        exact hall u (by omega) b hb)
  have hdef : bounds_check_indices_cpu BoundsCheckMode.WARNING rowsPerTable
      indices offsets warningInit = tableLoop BoundsCheckMode.WARNING
      rowsPerTable (indices.length : Int)
      ((offsets.length - 1) / rowsPerTable.length) 0 rowsPerTable.length s0 :=
    rfl
  refine ⟨s', ?_, ?_⟩
  · rw [hdef]
    exact hrun
  · rw [hwarn]
    show (0:Int) + _ = _
    rw [Int.zero_add]
    rfl

lemma hasViolation_iff_not_invariant (rc off ind : List Int) (B : Nat) :
    HasViolation rc off ind B ↔ ¬ Invariant rc off ind B := by
  constructor
  · rintro (⟨t, ht, b, hb, hseg⟩ |
      ⟨t, ht, b, hb, hseg, j, hj1, hj2, hj3, hj4, hj5⟩) hinv
    · exact hseg (hinv t ht b hb).1
    · rcases (hinv t ht b hb).2 j hj1 hj2 hj3 with h | ⟨h1, h2⟩
      · exact hj4 h
      · omega
  · intro hninv
    by_contra hnv
    apply hninv
    intro t ht b hb
    have hseg : segOk (ind.length : Int) (off.getD (t*B+b) 0)
        (off.getD (t*B+b+1) 0) := by
      by_contra hseg
      exact hnv (Or.inl ⟨t, ht, b, hb, hseg⟩)
    refine ⟨hseg, ?_⟩
    intro j hj1 hj2 hj3
    by_contra hbad
    refine hnv (Or.inr ⟨t, ht, b, hb, hseg, j, hj1, hj2, hj3, ?_, ?_⟩)
    · intro hm1
      exact hbad (Or.inl hm1)
    · by_contra hrange
      exact hbad (Or.inr (by omega))

lemma computedB_eq (T B : Nat) (off : List Int) (hT : 0 < T)
    (hshape : off.length = T*B+1) : (off.length - 1) / T = B := by
  rw [hshape]
  have h1 : T*B+1-1 = T*B := by omega
  rw [h1]
  exact Nat.mul_div_cancel_left B hT

/-- C1, counterexample to the claim as stated: with `RowCounts = [0]`,
`Offsets = [0, 1]` (one table, one batch element) and `Indices = [3]`, an
IGNORE call returns with `Indices = [0]`, and the repaired entry `0` is not a
valid row id for a table with `0` rows, so the claimed safety invariant fails
on the final state. -/
theorem C1_counterexample :
    bounds_check_indices_cpu BoundsCheckMode.IGNORE [0] [3] [0, 1] 0 =
      Except.ok ⟨[0, 1], [0], 0, 0⟩ ∧
    ¬ Invariant [0] [0, 1] [0] 1 := by
  constructor
  · rfl
  · decide

/-- C1 (amended): for every input with `len(RowCounts) = T`,
`len(Offsets) = T*B+1` and `RowCounts[t] ≥ 1` for every table, a WARNING or
IGNORE call returns and its final `Offsets`/`Indices` satisfy the safety
invariant: every segment is in bounds of `Indices` and every non-sentinel
covered entry is a valid row id for its table. (The positivity hypothesis is
forced by `C1_counterexample`: with `RowCounts[t] = 0` the repaired value `0`
itself violates the invariant.) -/
theorem C1_safety_invariant (mode : BoundsCheckMode)
    (hmode : mode = BoundsCheckMode.WARNING ∨ mode = BoundsCheckMode.IGNORE)
    (rowsPerTable indices offsets : List Int) (warningInit : Int)
    (T B : Nat) (hT : T = rowsPerTable.length)
    (hshape : offsets.length = T*B+1)
    (hrows : ∀ t, t < T → 1 ≤ rowsPerTable.getD t 0) :
    okBool (bounds_check_indices_cpu mode rowsPerTable indices offsets
      warningInit) = true ∧
    Invariant rowsPerTable
      (runOffsets (bounds_check_indices_cpu mode rowsPerTable indices offsets
        warningInit))
      (runIndices (bounds_check_indices_cpu mode rowsPerTable indices offsets
        warningInit)) B := by
  obtain ⟨s', hrun, holen, hilen, hoframe, hopost, hiframe, hevol, hipost,
    hign, hwinv, hnoop, hnoincr⟩ :=
    run_spec mode hmode rowsPerTable indices offsets warningInit
      ((offsets.length - 1) / rowsPerTable.length) rfl
  rw [hrun]
  refine ⟨rfl, ?_⟩
  show Invariant rowsPerTable s'.offsets s'.indices B
  rcases Nat.eq_zero_or_pos T with hT0 | hTpos
  · intro t ht b hb
    rw [← hT] at ht
    omega
  · have hBeq : (offsets.length - 1) / rowsPerTable.length = B := by
      rw [← hT]
      exact computedB_eq T B offsets hTpos hshape
    rw [hBeq] at hoframe hopost hiframe hipost hnoop hnoincr
    intro t ht b hb
    have hmul : (t+1)*B = t*B+B := by ring
    have hmulT : (t+1)*B ≤ rowsPerTable.length*B :=
      Nat.mul_le_mul_right B (by omega)
    constructor
    · have := hopost (t*B+b) (by omega)
      rw [hilen]
      exact this
    · intro j hjlen hj1 hj2
      rcases hipost t ht b hb j hj1 hj2 with h | ⟨h1, h2⟩
      · exact Or.inl h
      · refine Or.inr ⟨h1, ?_⟩
        rw [max_eq_left (hrows t (by omega))] at h2
        exact h2

/-- C1 witness: the amended theorem applied to a concrete in-shape input with
positive row counts. -/
theorem C1_safety_invariant_witness :
    okBool (bounds_check_indices_cpu BoundsCheckMode.IGNORE [3]
      [1, 5, -1, 2, 9] [0, 2, 5] 0) = true ∧
    Invariant [3]
      (runOffsets (bounds_check_indices_cpu BoundsCheckMode.IGNORE [3]
        [1, 5, -1, 2, 9] [0, 2, 5] 0))
      (runIndices (bounds_check_indices_cpu BoundsCheckMode.IGNORE [3]
        [1, 5, -1, 2, 9] [0, 2, 5] 0)) 2 :=
  C1_safety_invariant BoundsCheckMode.IGNORE (Or.inr rfl) [3] [1, 5, -1, 2, 9]
    [0, 2, 5] 0 1 2 (by decide) (by decide) (by decide)

/-- C7: concrete IGNORE scenario of the spec: `RowCounts = [3]`,
`Offsets = [0, 2, 5]`, `Indices = [1, 5, -1, 2, 9]` — the call returns with
`Offsets` unchanged and the out-of-range ids `5` and `9` zeroed, everything
else (including the sentinel) untouched, and the warning cell and diagnostics
untouched. -/
theorem C7_concrete_ignore :
    bounds_check_indices_cpu BoundsCheckMode.IGNORE [3] [1, 5, -1, 2, 9]
      [0, 2, 5] 0 =
    Except.ok ⟨[0, 2, 5], [1, 0, -1, 2, 0], 0, 0⟩ := by rfl

/-- C8: concrete WARNING scenario of the spec: `RowCounts = [3]`,
`Offsets = [0, 7, 5]` (end `7` exceeds `len(Indices) = 5`),
`Indices = [1, 5, -1, 2, 9]`, counter starting at 0 — the call returns,
`Offsets` is repaired to `[0, 5, 5]`, the counter ends at least 1, and exactly
one diagnostic record is emitted. -/
theorem C8_concrete_warning :
    bounds_check_indices_cpu BoundsCheckMode.WARNING [3] [1, 5, -1, 2, 9]
      [0, 7, 5] 0 =
      Except.ok ⟨[0, 5, 5], [1, 0, -1, 2, 0], 3, 1⟩ ∧
    runOffsets (bounds_check_indices_cpu BoundsCheckMode.WARNING [3]
      [1, 5, -1, 2, 9] [0, 7, 5] 0) = [0, 5, 5] ∧
    1 ≤ runWarning (bounds_check_indices_cpu BoundsCheckMode.WARNING [3]
      [1, 5, -1, 2, 9] [0, 7, 5] 0) ∧
    runDiagCount (bounds_check_indices_cpu BoundsCheckMode.WARNING [3]
      [1, 5, -1, 2, 9] [0, 7, 5] 0) = 1 := by
  refine ⟨by rfl, by rfl, by decide, by rfl⟩

/-- C9: memory safety: under every policy and on every input, the routine
never performs an out-of-bounds read or write on the caller-provided buffers
(every access in the model is bounds-checked and would surface as
`CheckErr.oob`). -/
theorem C9_memory_safety (mode : BoundsCheckMode)
    (rowsPerTable indices offsets : List Int) (warningInit : Int) :
    bounds_check_indices_cpu mode rowsPerTable indices offsets warningInit ≠
      Except.error CheckErr.oob := by
  cases mode
  · rcases run_fatal rowsPerTable indices offsets warningInit
        ((offsets.length - 1) / rowsPerTable.length) rfl with
      ⟨_, hrun⟩ | ⟨_, hrun⟩ <;> rw [hrun] <;> intro h <;> simp at h
  · obtain ⟨s', hrun, _⟩ :=
      run_spec BoundsCheckMode.WARNING (Or.inl rfl) rowsPerTable indices
        offsets warningInit ((offsets.length - 1) / rowsPerTable.length) rfl
    rw [hrun]
    intro h
    simp at h
  · obtain ⟨s', hrun, _⟩ :=
      run_spec BoundsCheckMode.IGNORE (Or.inr rfl) rowsPerTable indices
        offsets warningInit ((offsets.length - 1) / rowsPerTable.length) rfl
    rw [hrun]
    intro h
    simp at h

/-- C2: FATAL strictness: on every input that contains a violation of either
kind (an out-of-bounds segment, or a non-sentinel out-of-range id inside an
in-bounds segment), a FATAL call fails with the check error — it never
returns success and never silently repairs. -/
theorem C2_fatal_strictness (rowsPerTable indices offsets : List Int)
    (warningInit : Int) (T B : Nat) (hT : T = rowsPerTable.length)
    (hshape : offsets.length = T*B+1)
    (hviol : HasViolation rowsPerTable offsets indices B) :
    bounds_check_indices_cpu BoundsCheckMode.FATAL rowsPerTable indices offsets
      warningInit = Except.error CheckErr.checkFail := by
  rcases Nat.eq_zero_or_pos T with hT0 | hTpos
  · exfalso
    rcases hviol with ⟨t, ht, _⟩ | ⟨t, ht, _⟩ <;> rw [← hT] at ht <;> omega
  · have hBeq : (offsets.length - 1) / rowsPerTable.length = B := by
      rw [← hT]
      exact computedB_eq T B offsets hTpos hshape
    rcases run_fatal rowsPerTable indices offsets warningInit
        ((offsets.length - 1) / rowsPerTable.length) rfl with
      ⟨hAll, hrun⟩ | ⟨_, hrun⟩
    · exfalso
      rw [hBeq] at hAll
      exact (hasViolation_iff_not_invariant rowsPerTable offsets indices
        B).mp hviol hAll
    · exact hrun

/-- C2 witness: the FATAL call on the spec's corrupted-offsets scenario. -/
theorem C2_fatal_strictness_witness :
    bounds_check_indices_cpu BoundsCheckMode.FATAL [3] [1, 5, -1, 2, 9]
      [0, 7, 5] 0 = Except.error CheckErr.checkFail :=
  C2_fatal_strictness [3] [1, 5, -1, 2, 9] [0, 7, 5] 0 1 2 (by decide)
    (by decide) (by decide)

/-- C3: under WARNING with at least one violation and a counter starting at 0,
the call returns, emits exactly one diagnostic record, and leaves the counter
nonzero. -/
theorem C3_single_diagnostic (rowsPerTable indices offsets : List Int)
    (T B : Nat) (hT : T = rowsPerTable.length)
    (hshape : offsets.length = T*B+1)
    (hviol : HasViolation rowsPerTable offsets indices B) :
    okBool (bounds_check_indices_cpu BoundsCheckMode.WARNING rowsPerTable
      indices offsets 0) = true ∧
    runDiagCount (bounds_check_indices_cpu BoundsCheckMode.WARNING rowsPerTable
      indices offsets 0) = 1 ∧
    runWarning (bounds_check_indices_cpu BoundsCheckMode.WARNING rowsPerTable
      indices offsets 0) ≠ 0 := by
  rcases Nat.eq_zero_or_pos T with hT0 | hTpos
  · exfalso
    rcases hviol with ⟨t, ht, _⟩ | ⟨t, ht, _⟩ <;> rw [← hT] at ht <;> omega
  · have hBeq : (offsets.length - 1) / rowsPerTable.length = B := by
      rw [← hT]
      exact computedB_eq T B offsets hTpos hshape
    obtain ⟨s', hrun, holen, hilen, hoframe, hopost, hiframe, hevol, hipost,
      hign, hwinv, hnoop, hnoincr⟩ :=
      run_spec BoundsCheckMode.WARNING (Or.inl rfl) rowsPerTable indices
        offsets 0 ((offsets.length - 1) / rowsPerTable.length) rfl
    rw [hrun]
    obtain ⟨hw0, hwd⟩ := hwinv rfl
    have hwne : s'.warning ≠ 0 := by
      intro hz
      obtain ⟨_, hsv⟩ := hnoincr rfl hz
      rw [hBeq] at hsv
      exact (hasViolation_iff_not_invariant rowsPerTable offsets indices
        B).mp hviol hsv
    refine ⟨rfl, ?_, hwne⟩
    show s'.diagCount = 1
    rw [hwd, if_neg hwne]

/-- C3 witness: the WARNING call on the spec's corrupted-offsets scenario. -/
theorem C3_single_diagnostic_witness :
    okBool (bounds_check_indices_cpu BoundsCheckMode.WARNING [3]
      [1, 5, -1, 2, 9] [0, 7, 5] 0) = true ∧
    runDiagCount (bounds_check_indices_cpu BoundsCheckMode.WARNING [3]
      [1, 5, -1, 2, 9] [0, 7, 5] 0) = 1 ∧
    runWarning (bounds_check_indices_cpu BoundsCheckMode.WARNING [3]
      [1, 5, -1, 2, 9] [0, 7, 5] 0) ≠ 0 :=
  C3_single_diagnostic [3] [1, 5, -1, 2, 9] [0, 7, 5] 1 2 (by decide)
    (by decide) (by decide)

/-- C4: no-op on valid input: when the input already satisfies the safety
invariant, every policy returns with `Offsets` and `Indices` unchanged, and
under WARNING the counter ends at 0 with no diagnostic. -/
theorem C4_noop_on_valid (mode : BoundsCheckMode)
    (rowsPerTable indices offsets : List Int) (warningInit : Int)
    (T B : Nat) (hT : T = rowsPerTable.length)
    (hshape : offsets.length = T*B+1)
    (hvalid : Invariant rowsPerTable offsets indices B) :
    okBool (bounds_check_indices_cpu mode rowsPerTable indices offsets
      warningInit) = true ∧
    runOffsets (bounds_check_indices_cpu mode rowsPerTable indices offsets
      warningInit) = offsets ∧
    runIndices (bounds_check_indices_cpu mode rowsPerTable indices offsets
      warningInit) = indices ∧
    (mode = BoundsCheckMode.WARNING →
      runWarning (bounds_check_indices_cpu mode rowsPerTable indices offsets
        warningInit) = 0 ∧
      runDiagCount (bounds_check_indices_cpu mode rowsPerTable indices offsets
        warningInit) = 0) := by
  have hAll : ∀ u, u < rowsPerTable.length →
      ∀ b, b < (offsets.length - 1) / rowsPerTable.length →
      SegValidAt (indices.length : Int) (rowsPerTable.getD u 0) offsets indices
        (u*((offsets.length - 1) / rowsPerTable.length)+b) := by
    rcases Nat.eq_zero_or_pos T with hT0 | hTpos
    · intro u hu
      rw [← hT] at hu
      omega
    · have hBeq : (offsets.length - 1) / rowsPerTable.length = B := by
        rw [← hT]
        exact computedB_eq T B offsets hTpos hshape
      rw [hBeq]
      exact hvalid
  cases mode
  · rcases run_fatal rowsPerTable indices offsets warningInit
        ((offsets.length - 1) / rowsPerTable.length) rfl with
      ⟨_, hrun⟩ | ⟨hn, _⟩
    · rw [hrun]
      exact ⟨rfl, rfl, rfl, fun h => by simp at h⟩
    · exact absurd hAll hn
  · obtain ⟨s', hrun, _, _, _, _, _, _, _, _, _, hnoop, _⟩ :=
      run_spec BoundsCheckMode.WARNING (Or.inl rfl) rowsPerTable indices
        offsets warningInit ((offsets.length - 1) / rowsPerTable.length) rfl
    have hse := hnoop hAll
    rw [hrun, hse]
    exact ⟨rfl, rfl, rfl, fun _ => ⟨rfl, rfl⟩⟩
  · obtain ⟨s', hrun, _, _, _, _, _, _, _, _, _, hnoop, _⟩ :=
      run_spec BoundsCheckMode.IGNORE (Or.inr rfl) rowsPerTable indices
        offsets warningInit ((offsets.length - 1) / rowsPerTable.length) rfl
    have hse := hnoop hAll
    rw [hrun, hse]
    exact ⟨rfl, rfl, rfl, fun h => by simp at h⟩

/-- C4 witness: a WARNING call on an already-valid input leaves everything
unchanged and the counter at 0. -/
theorem C4_noop_on_valid_witness :
    okBool (bounds_check_indices_cpu BoundsCheckMode.WARNING [3]
      [1, 0, -1, 2, 0] [0, 2, 5] 7) = true ∧
    runOffsets (bounds_check_indices_cpu BoundsCheckMode.WARNING [3]
      [1, 0, -1, 2, 0] [0, 2, 5] 7) = [0, 2, 5] ∧
    runIndices (bounds_check_indices_cpu BoundsCheckMode.WARNING [3]
      [1, 0, -1, 2, 0] [0, 2, 5] 7) = [1, 0, -1, 2, 0] ∧
    runWarning (bounds_check_indices_cpu BoundsCheckMode.WARNING [3]
      [1, 0, -1, 2, 0] [0, 2, 5] 7) = 0 ∧
    runDiagCount (bounds_check_indices_cpu BoundsCheckMode.WARNING [3]
      [1, 0, -1, 2, 0] [0, 2, 5] 7) = 0 := by
  obtain ⟨h1, h2, h3, h4⟩ := C4_noop_on_valid BoundsCheckMode.WARNING [3]
    [1, 0, -1, 2, 0] [0, 2, 5] 7 1 2 (by decide) (by decide) (by decide)
  exact ⟨h1, h2, h3, (h4 rfl).1, (h4 rfl).2⟩

/-- C5: sentinel transparency: under every policy, a returning call leaves
every `-1` entry of `Indices` equal to `-1`; entries outside every final
segment are untouched; and an input whose segments are in bounds and whose
covered entries are all sentinels is never counted as a violation — the call
returns and, under WARNING, the counter stays 0 with no diagnostic. -/
theorem C5_sentinel_transparency (mode : BoundsCheckMode)
    (rowsPerTable indices offsets : List Int) (warningInit : Int) :
    (∀ s', bounds_check_indices_cpu mode rowsPerTable indices offsets
        warningInit = Except.ok s' →
      ∀ i : Nat, indices.getD i 0 = -1 → s'.indices.getD i 0 = -1) ∧
    (∀ s', bounds_check_indices_cpu mode rowsPerTable indices offsets
        warningInit = Except.ok s' →
      ∀ i : Nat, (∀ k : Nat,
          k < rowsPerTable.length * ((offsets.length - 1) / rowsPerTable.length) →
          ¬(s'.offsets.getD k 0 ≤ (i : Int) ∧
            (i : Int) < s'.offsets.getD (k+1) 0)) →
        s'.indices.getD i 0 = indices.getD i 0) ∧
    ((∀ u, u < rowsPerTable.length →
        ∀ b, b < (offsets.length - 1) / rowsPerTable.length →
        segOk (indices.length : Int)
          (offsets.getD (u*((offsets.length - 1)/rowsPerTable.length)+b) 0)
          (offsets.getD (u*((offsets.length - 1)/rowsPerTable.length)+b+1) 0) ∧
        ∀ j : Nat, j < indices.length →
          offsets.getD (u*((offsets.length - 1)/rowsPerTable.length)+b) 0 ≤
            (j : Int) →
          (j : Int) <
            offsets.getD (u*((offsets.length - 1)/rowsPerTable.length)+b+1) 0 →
          indices.getD j 0 = -1) →
      okBool (bounds_check_indices_cpu mode rowsPerTable indices offsets
        warningInit) = true ∧
      (mode = BoundsCheckMode.WARNING →
        runWarning (bounds_check_indices_cpu mode rowsPerTable indices offsets
          warningInit) = 0 ∧
        runDiagCount (bounds_check_indices_cpu mode rowsPerTable indices
          offsets warningInit) = 0)) := by
  have huniv : ∀ s', bounds_check_indices_cpu mode rowsPerTable indices
      offsets warningInit = Except.ok s' →
      IndEvol indices s'.indices ∧
      (∀ i : Nat, (∀ k : Nat,
          k < rowsPerTable.length * ((offsets.length - 1) / rowsPerTable.length) →
          ¬(s'.offsets.getD k 0 ≤ (i : Int) ∧
            (i : Int) < s'.offsets.getD (k+1) 0)) →
        s'.indices.getD i 0 = indices.getD i 0) := by
    intro s' hrun'
    cases mode
    · rcases run_fatal rowsPerTable indices offsets warningInit
          ((offsets.length - 1) / rowsPerTable.length) rfl with
        ⟨_, hrun⟩ | ⟨_, hrun⟩
      · rw [hrun] at hrun'
        injection hrun' with h
        rw [← h]
        exact ⟨indEvol_refl _, fun i _ => rfl⟩
      · rw [hrun] at hrun'
        exact absurd hrun' (by simp)
    · obtain ⟨s'', hrun, _, _, _, _, hiframe, hevol, _, _, _, _, _⟩ :=
        run_spec BoundsCheckMode.WARNING (Or.inl rfl) rowsPerTable indices
          offsets warningInit ((offsets.length - 1) / rowsPerTable.length) rfl
      rw [hrun] at hrun'
      injection hrun' with h
      rw [← h]
      exact ⟨hevol, hiframe⟩
    · obtain ⟨s'', hrun, _, _, _, _, hiframe, hevol, _, _, _, _, _⟩ :=
        run_spec BoundsCheckMode.IGNORE (Or.inr rfl) rowsPerTable indices
          offsets warningInit ((offsets.length - 1) / rowsPerTable.length) rfl
      rw [hrun] at hrun'
      injection hrun' with h
      rw [← h]
      exact ⟨hevol, hiframe⟩
  refine ⟨?_, ?_, ?_⟩
  · intro s' hrun' i hi
    rcases (huniv s' hrun').1 i with h | ⟨_, hne⟩
    · rw [h]
      exact hi
    · exact absurd hi hne
  · intro s' hrun' i hout
    exact (huniv s' hrun').2 i hout
  · intro hsent
    have hAll : ∀ u, u < rowsPerTable.length →
        ∀ b, b < (offsets.length - 1) / rowsPerTable.length →
        SegValidAt (indices.length : Int) (rowsPerTable.getD u 0) offsets
          indices (u*((offsets.length - 1) / rowsPerTable.length)+b) := by
      intro u hu b hb
      obtain ⟨hseg, hall⟩ := hsent u hu b hb
      exact ⟨hseg, fun j hj1 hj2 hj3 => Or.inl (hall j hj1 hj2 hj3)⟩
    cases mode
    · rcases run_fatal rowsPerTable indices offsets warningInit
          ((offsets.length - 1) / rowsPerTable.length) rfl with
        ⟨_, hrun⟩ | ⟨hn, _⟩
      · rw [hrun]
        exact ⟨rfl, fun h => by simp at h⟩
      · exact absurd hAll hn
    · obtain ⟨s', hrun, _, _, _, _, _, _, _, _, _, hnoop, _⟩ :=
        run_spec BoundsCheckMode.WARNING (Or.inl rfl) rowsPerTable indices
          offsets warningInit ((offsets.length - 1) / rowsPerTable.length) rfl
      have hse := hnoop hAll
      rw [hrun, hse]
      exact ⟨rfl, fun _ => ⟨rfl, rfl⟩⟩
    · obtain ⟨s', hrun, _, _, _, _, _, _, _, _, _, hnoop, _⟩ :=
        run_spec BoundsCheckMode.IGNORE (Or.inr rfl) rowsPerTable indices
          offsets warningInit ((offsets.length - 1) / rowsPerTable.length) rfl
      have hse := hnoop hAll
      rw [hrun, hse]
      exact ⟨rfl, fun h => by simp at h⟩

/-- C5 witness: a WARNING call on `Indices = [-1, 5]` zeroes the bad id but
leaves the sentinel at position 0 untouched. -/
theorem C5_sentinel_transparency_witness :
    bounds_check_indices_cpu BoundsCheckMode.WARNING [2] [-1, 5] [0, 2] 0 =
      Except.ok ⟨[0, 2], [-1, 0], 1, 1⟩ ∧
    (⟨[0, 2], [-1, 0], 1, 1⟩ : CheckState).indices.getD 0 0 = -1 := by
  refine ⟨by rfl, ?_⟩
  exact (C5_sentinel_transparency BoundsCheckMode.WARNING [2] [-1, 5] [0, 2]
    0).1 ⟨[0, 2], [-1, 0], 1, 1⟩ (by rfl) 0 (by decide)

/-- C6: on every input, the final `Offsets` and `Indices` of a WARNING call
coincide with those of an IGNORE call (whatever the two initial counter
values); the two policies differ only in the counter and the diagnostic, and
both calls return. -/
theorem C6_warning_ignore_equiv (rowsPerTable indices offsets : List Int)
    (w1 w2 : Int) :
    runOffsets (bounds_check_indices_cpu BoundsCheckMode.WARNING rowsPerTable
      indices offsets w1) =
    runOffsets (bounds_check_indices_cpu BoundsCheckMode.IGNORE rowsPerTable
      indices offsets w2) ∧
    runIndices (bounds_check_indices_cpu BoundsCheckMode.WARNING rowsPerTable
      indices offsets w1) =
    runIndices (bounds_check_indices_cpu BoundsCheckMode.IGNORE rowsPerTable
      indices offsets w2) ∧
    okBool (bounds_check_indices_cpu BoundsCheckMode.WARNING rowsPerTable
      indices offsets w1) = true ∧
    okBool (bounds_check_indices_cpu BoundsCheckMode.IGNORE rowsPerTable
      indices offsets w2) = true := by
  have hposB : (offsets.length - 1) / rowsPerTable.length = 0 ∨
      (0 + rowsPerTable.length) *
        ((offsets.length - 1) / rowsPerTable.length) <
        (⟨offsets, indices, 0, 0⟩ : CheckState).offsets.length := by
    rcases Nat.eq_zero_or_pos offsets.length with hl | hl
    · left
      have h1 : offsets.length - 1 = 0 := by omega
      rw [h1, Nat.zero_div]
    · right
      have h2 := Nat.div_mul_le_self (offsets.length - 1) rowsPerTable.length
      have h3 : (⟨offsets, indices, 0, 0⟩ : CheckState).offsets.length =
          offsets.length := rfl
      have h4 : (0 + rowsPerTable.length) *
          ((offsets.length - 1) / rowsPerTable.length) =
          ((offsets.length - 1) / rowsPerTable.length) * rowsPerTable.length :=
        by ring
      omega
  obtain ⟨r1, r2, hr1, hr2, hoeq, hieq⟩ :=
    tableLoop_WI rowsPerTable (indices.length : Int)
      ((offsets.length - 1) / rowsPerTable.length) rowsPerTable.length 0
      ⟨offsets, indices, 0, 0⟩ ⟨offsets, indices, w2, 0⟩ rfl rfl (by omega)
      hposB rfl
  have hdef1 : bounds_check_indices_cpu BoundsCheckMode.WARNING rowsPerTable
      indices offsets w1 = tableLoop BoundsCheckMode.WARNING rowsPerTable
      (indices.length : Int) ((offsets.length - 1) / rowsPerTable.length) 0
      rowsPerTable.length ⟨offsets, indices, 0, 0⟩ := rfl
  have hdef2 : bounds_check_indices_cpu BoundsCheckMode.IGNORE rowsPerTable
      indices offsets w2 = tableLoop BoundsCheckMode.IGNORE rowsPerTable
      (indices.length : Int) ((offsets.length - 1) / rowsPerTable.length) 0
      rowsPerTable.length ⟨offsets, indices, w2, 0⟩ := rfl
  rw [hdef1, hdef2, hr1, hr2]
  exact ⟨hoeq, hieq, rfl, rfl⟩

/-- C10, counterexample to the claim as stated: with `RowCounts = [1, 1]`,
`Offsets = [2, 0, 2]` and `Indices = [5, 5]`, repairing the first (violating)
segment rewrites the shared offset and shrinks the second table's segment to
empty before it is scanned, so the final counter is `1` while the static tally
of the claim's formula (one segment violation plus two bad row ids) is `3`. -/
theorem C10_counterexample :
    bounds_check_indices_cpu BoundsCheckMode.WARNING [1, 1] [5, 5] [2, 0, 2] 0
      = Except.ok ⟨[2, 2, 2], [5, 5], 1, 1⟩ ∧
    staticViolationTotal [1, 1] [2, 0, 2] [5, 5] 1 = 3 ∧
    runWarning (bounds_check_indices_cpu BoundsCheckMode.WARNING [1, 1] [5, 5]
      [2, 0, 2] 0) ≠
      (staticViolationTotal [1, 1] [2, 0, 2] [5, 5] 1 : Int) := by
  refine ⟨by rfl, by decide, by decide⟩

/-- C10 (amended): under WARNING the counter is zeroed at entry, so the result
does not depend on its initial value; FATAL (on success) and IGNORE leave the
counter at its initial value; and when every segment of the input is in
bounds, the final counter equals the exact static violation tally (which then
consists of one per non-sentinel in-segment id outside its table's range).
(When a segment violation exists, the counter can undercount the static tally,
as `C10_counterexample` shows: repairing a segment can shrink a later segment
before it is scanned.) -/
theorem C10_warning_counter (rowsPerTable indices offsets : List Int)
    (w w' : Int) (T B : Nat) (hT : T = rowsPerTable.length)
    (hshape : offsets.length = T*B+1) :
    (bounds_check_indices_cpu BoundsCheckMode.WARNING rowsPerTable indices
        offsets w =
      bounds_check_indices_cpu BoundsCheckMode.WARNING rowsPerTable indices
        offsets w') ∧
    (∀ s', bounds_check_indices_cpu BoundsCheckMode.FATAL rowsPerTable indices
        offsets w = Except.ok s' → s'.warning = w) ∧
    (∀ s', bounds_check_indices_cpu BoundsCheckMode.IGNORE rowsPerTable
        indices offsets w = Except.ok s' → s'.warning = w) ∧
    (SegOkAll rowsPerTable offsets indices B →
      okBool (bounds_check_indices_cpu BoundsCheckMode.WARNING rowsPerTable
        indices offsets w) = true ∧
      runWarning (bounds_check_indices_cpu BoundsCheckMode.WARNING rowsPerTable
        indices offsets w) =
        (staticViolationTotal rowsPerTable offsets indices B : Int)) := by
  refine ⟨rfl, ?_, ?_, ?_⟩
  · intro s' hrun'
    rcases run_fatal rowsPerTable indices offsets w
        ((offsets.length - 1) / rowsPerTable.length) rfl with
      ⟨_, hrun⟩ | ⟨_, hrun⟩
    · rw [hrun] at hrun'
      injection hrun' with h
      rw [← h]
    · rw [hrun] at hrun'
      exact absurd hrun' (by simp)
  · intro s' hrun'
    obtain ⟨s'', hrun, _, _, _, _, _, _, _, hign, _, _, _⟩ :=
      run_spec BoundsCheckMode.IGNORE (Or.inr rfl) rowsPerTable indices
        offsets w ((offsets.length - 1) / rowsPerTable.length) rfl
    rw [hrun] at hrun'
    injection hrun' with h
    rw [← h]
    exact (hign rfl).1
  · intro hok
    rcases Nat.eq_zero_or_pos T with hT0 | hTpos
    · obtain ⟨s', hrun, _, _, _, _, _, _, _, _, _, hnoop, _⟩ :=
        run_spec BoundsCheckMode.WARNING (Or.inl rfl) rowsPerTable indices
          offsets w ((offsets.length - 1) / rowsPerTable.length) rfl
      have hlen0 : rowsPerTable.length = 0 := by omega
      have hse := hnoop (by
        intro u hu
        rw [hlen0] at hu
        omega)
      rw [hrun, hse]
      refine ⟨rfl, ?_⟩
      have hst : staticViolationTotal rowsPerTable offsets indices B = 0 := by
        unfold staticViolationTotal
        rw [hlen0]
        rfl
      rw [hst]
      rfl
    · have hBeq : (offsets.length - 1) / rowsPerTable.length = B := by
        rw [← hT]
        exact computedB_eq T B offsets hTpos hshape
      obtain ⟨s', hrun, hwarn⟩ :=
        run_count rowsPerTable indices offsets w
          ((offsets.length - 1) / rowsPerTable.length) rfl
          (by
            rw [hBeq]
            exact hok)
      rw [hrun]
      refine ⟨rfl, ?_⟩
      show s'.warning = _
      rw [hwarn, hBeq]

/-- C10 witness: the amended theorem applied to an input with in-bounds
segments and two out-of-range ids: the counter is independent of its initial
value and ends at the exact static tally. -/
theorem C10_warning_counter_witness :
    bounds_check_indices_cpu BoundsCheckMode.WARNING [3] [1, 5, -1, 2, 9]
      [0, 2, 5] 5 =
    bounds_check_indices_cpu BoundsCheckMode.WARNING [3] [1, 5, -1, 2, 9]
      [0, 2, 5] 9 ∧
    runWarning (bounds_check_indices_cpu BoundsCheckMode.WARNING [3]
      [1, 5, -1, 2, 9] [0, 2, 5] 5) =
      (staticViolationTotal [3] [0, 2, 5] [1, 5, -1, 2, 9] 2 : Int) := by
  obtain ⟨h1, _, _, h4⟩ := C10_warning_counter [3] [1, 5, -1, 2, 9] [0, 2, 5]
    5 9 1 2 (by decide) (by decide)
  exact ⟨h1, (h4 (by decide)).2⟩

end BoundsCheck














